import Mathlib

/-!
Verification of the Medallion workflow engine against its specification.

The development shallowly embeds, in Lean, the parts of the Go source that
the claims talk about:

* the Cypher-to-SQL query translator (`internal/kg/query.go`,
  functions `ParseQuery`, `parseMatchQuery`, `parseCountQuery`,
  `parseWhereQuery`, `parseSimpleMatchQuery`);
* the workflow executor (`internal/orchestrator/orchestrator.go`,
  functions `ExecuteWorkflow`, `areDependenciesSatisfied`, `executeStep`,
  `substituteVariables`) together with the store operations of
  `internal/kg/driver.go` it performs (`CreateRun`, `UpdateRunStatus`,
  `GetAgent`, `CreateArtifact`) and the provider request shape of
  `internal/providers/provider.go` and the Ollama client.

Modelling conventions:

* Go strings are Lean `String`s; the handful of `strings.*` functions the
  source uses are re-implemented below on `List Char` so that they are
  fully transparent and evaluate by `decide`.  They agree with Go on the
  ASCII inputs that occur here (Go `strings.ToUpper` and `TrimSpace` are
  Unicode-aware; the repository only feeds them ASCII).
* Go `map` values are modelled as association lists.  Go map iteration
  order is unspecified and randomized per invocation; where it is
  observable (the two `range` loops of `substituteVariables`), the order
  is supplied by the environment as an index sequence per call
  (`varOrderAt`, `resOrderAt`) — a real execution supplies a permutation
  of the positions at every call, and two invocations of the program on
  identical inputs may realize different sequences.
* `time.Now()` is modelled by an environment-supplied sequence
  `timeAt : Nat → Int`; the n-th clock read of a run returns `timeAt n`.
* Store writes are pure state updates on `KGState`; injected error knobs
  (`createRunErr`, `createArtifactErr`) model SQL failures.  Reads and
  writes are additionally recorded in ghost logs (`storeLog`, `reqLog`,
  `execOrder`, `passLog`) so that the claims about traces can be stated;
  the ghost fields do not influence control flow.
-/

namespace Medallion

/-! ## Go string helpers -/

/-- ASCII white-space test used by the model of `strings.TrimSpace`. -/
def goIsSpace (c : Char) : Bool :=
  c = ' ' || c = '\t' || c = '\n' || c = '\r'

/-- Model of Go `strings.TrimSpace` (ASCII scope). -/
def goTrimSpace (s : String) : String :=
  ⟨((s.data.dropWhile goIsSpace).reverse.dropWhile goIsSpace).reverse⟩

/-- Model of Go `strings.ToUpper` (ASCII scope). -/
def goToUpper (s : String) : String :=
  ⟨s.data.map Char.toUpper⟩

/-- Model of Go `strings.HasPrefix`. -/
def goStartsWith (s pre : String) : Bool :=
  pre.data.isPrefixOf s.data

/-- Substring test on character lists; `listContainsSub s pat` is true iff
`pat` occurs contiguously in `s`. -/
def listContainsSub : List Char → List Char → Bool
  | [], pat => pat.isEmpty
  | c :: cs, pat => pat.isPrefixOf (c :: cs) || listContainsSub cs pat

/-- Model of Go `strings.Contains`. -/
def goContains (s sub : String) : Bool :=
  listContainsSub s.data sub.data

/-- Everything after the first occurrence of `pat`, or `none` when `pat`
does not occur.  Models `strings.Index` followed by slicing `s[i+len:]`. -/
def listAfter : List Char → List Char → Option (List Char)
  | [], pat => if pat.isEmpty then some [] else none
  | c :: cs, pat =>
    if pat.isPrefixOf (c :: cs) then some ((c :: cs).drop pat.length)
    else listAfter cs pat

/-- String wrapper for `listAfter`. -/
def goAfterFirst (s pat : String) : Option String :=
  (listAfter s.data pat.data).map fun l => ⟨l⟩

/-- Helper for `listReplace`: scans the text one character at a time; the
counter holds the number of characters of a just-matched occurrence still
to be consumed without output. -/
def listReplaceAux (pat rep : List Char) : List Char → Nat → List Char
  | [], _ => []
  | _ :: cs, k + 1 => listReplaceAux pat rep cs k
  | c :: cs, 0 =>
    if pat.isPrefixOf (c :: cs) ∧ pat ≠ [] then
      rep ++ listReplaceAux pat rep cs (pat.length - 1)
    else
      c :: listReplaceAux pat rep cs 0

/-- Replace every non-overlapping occurrence of `pat` (scanning left to
right, not rescanning the replacement) by `rep`.  Models
`strings.ReplaceAll` for a non-empty pattern; the empty pattern, which the
source never passes, is left as the identity here. -/
def listReplace (pat rep s : List Char) : List Char :=
  listReplaceAux pat rep s 0

/-- Model of Go `strings.ReplaceAll`. -/
def goReplaceAll (s old new : String) : String :=
  ⟨listReplace old.data new.data s.data⟩

/-- A single-quote character, kept out of string literals. -/
def sq : String := ⟨[Char.ofNat 39]⟩

/-! ## Query translator (`internal/kg/query.go`) -/

/-- Embedding of `parseCountQuery`: maps a label occurrence, tested in the
fixed source order, to an unfiltered SQL count. -/
def parseCountQuery (query : String) : Except String String :=
  if goContains query ":Claim" then .ok "SELECT COUNT(*) FROM claims"
  else if goContains query ":Agent" then .ok "SELECT COUNT(*) FROM agents"
  else if goContains query ":Run" then .ok "SELECT COUNT(*) FROM runs"
  else if goContains query ":Artifact" then .ok "SELECT COUNT(*) FROM artifacts"
  else .error "unsupported entity type in COUNT query"

/-- Embedding of `parseWhereQuery`: only the `:Agent` label is handled; the
text after the first `WHERE` is kept whole (trimmed, `n.` stripped,
double quotes turned into single quotes). -/
def parseWhereQuery (query : String) : Except String String :=
  if goContains query ":Agent" then
    match goAfterFirst query "WHERE" with
    | none => .error "WHERE clause not found"
    | some rest =>
      let wc := goTrimSpace rest
      let wc := goReplaceAll wc "n." ""
      let wc := goReplaceAll wc "\"" sq
      .ok ("SELECT * FROM agents WHERE " ++ wc)
  else .error "unsupported entity type in WHERE query"

/-- Embedding of `parseSimpleMatchQuery`. -/
def parseSimpleMatchQuery (query : String) : Except String String :=
  if goContains query ":Claim" then .ok "SELECT * FROM claims"
  else if goContains query ":Agent" then .ok "SELECT * FROM agents"
  else if goContains query ":Run" then .ok "SELECT * FROM runs"
  else if goContains query ":Artifact" then .ok "SELECT * FROM artifacts"
  else .error "unsupported entity type in simple MATCH query"

/-- Embedding of `parseMatchQuery`: dispatch on `COUNT`, then `WHERE`,
checked on the original-case query text. -/
def parseMatchQuery (query : String) : Except String String :=
  if goContains query "COUNT" then parseCountQuery query
  else if goContains query "WHERE" then parseWhereQuery query
  else parseSimpleMatchQuery query

/-- Embedding of `QueryParser.ParseQuery`: the trimmed, upper-cased query
decides the dispatch, but the match branch receives the original text. -/
def ParseQuery (cypherQuery : String) : Except String String :=
  let query := goToUpper (goTrimSpace cypherQuery)
  if goStartsWith query "MATCH" then parseMatchQuery cypherQuery
  else if goStartsWith query "SELECT" then .ok cypherQuery
  else .error ("unsupported query type: " ++ query)

/-- The four entity labels the translator supports. -/
inductive EntityLabel where
  | claimL
  | agentL
  | runL
  | artifactL
deriving DecidableEq

/-- The pattern token of a label. -/
def labelToken : EntityLabel → String
  | .claimL => ":Claim"
  | .agentL => ":Agent"
  | .runL => ":Run"
  | .artifactL => ":Artifact"

/-- The backing collection of a label. -/
def labelTable : EntityLabel → String
  | .claimL => "claims"
  | .agentL => "agents"
  | .runL => "runs"
  | .artifactL => "artifacts"

/-- True when no label checked before `l` in the source order occurs in the
query, so that the source dispatch selects `l`. -/
def noEarlierLabel (q : String) : EntityLabel → Bool
  | .claimL => true
  | .agentL => !goContains q ":Claim"
  | .runL => !goContains q ":Claim" && !goContains q ":Agent"
  | .artifactL => !goContains q ":Claim" && !goContains q ":Agent" && !goContains q ":Run"

/-! ## Data model (`internal/orchestrator/orchestrator.go`, `internal/kg/driver.go`) -/

/-- `kg.Agent` (the Go field `Type` is `typ` here; `time` fields that the
executor never reads are omitted). -/
structure Agent where
  id : String
  name : String
  typ : String
  description : String
  modelProvider : String
  modelName : String
  systemPrompt : String
deriving DecidableEq, Repr

/-- `orchestrator.WorkflowStep`. -/
structure WorkflowStep where
  name : String
  agent : String
  input : String
  dependsOn : List String
  successWhen : String
deriving DecidableEq, Repr

/-- `orchestrator.Workflow`.  Go `map[string]interface{}` variables are
modelled as an association list of already-formatted string values. -/
structure Workflow where
  name : String
  description : String
  agents : List String
  steps : List WorkflowStep
  vars : List (String × String)
deriving DecidableEq, Repr

/-- `orchestrator.StepResult`.  Timestamps are the `Int` values returned by
the modelled clock.  The Go code never assigns `Input`, so the field stays
at its zero value; it is kept to mirror the struct. -/
structure StepResult where
  name : String
  agent : String
  status : String
  input : String
  output : String
  error : String
  startTime : Int
  endTime : Option Int
  duration : Option Int
  metadata : List (String × String)
deriving DecidableEq, Repr

/-- `orchestrator.ExecutionResult`. -/
structure ExecutionResult where
  runId : String
  status : String
  startTime : Int
  endTime : Option Int
  duration : Option Int
  steps : List (String × StepResult)
  output : List (String × String)
  error : String
deriving DecidableEq, Repr

/-- `kg.Run` as stored (database-side timestamps omitted: no claim reads
them). -/
structure RunRecord where
  id : String
  workflowName : String
  status : String
  inputData : String
  outputData : String
  errorMessage : String
  metadata : String
deriving DecidableEq, Repr

/-- `kg.Artifact` as stored. -/
structure Artifact where
  id : String
  runId : String
  stepName : String
  agentId : String
  content : String
  contentType : String
  metadata : String
deriving DecidableEq, Repr

/-- Mutable store state: the `runs` and `artifacts` tables.  The read-only
`agents` table lives in `Env`. -/
structure KGState where
  runs : List RunRecord
  artifacts : List Artifact
deriving DecidableEq, Repr

/-- Ghost trace of successful store writes. -/
inductive StoreOp where
  | createRun (r : RunRecord)
  | updateRunStatus (runId status outputData errorMessage : String)
  | createArtifact (a : Artifact)
deriving DecidableEq, Repr

/-- `providers.GenerateRequest`.  `float64` parameters are modelled as
rationals.  As in the source, the struct has no model-name field. -/
structure GenerateRequest where
  prompt : String
  systemPrompt : String
  maxTokens : Nat
  temperature : Rat
  topP : Rat
  stop : List String
  metadata : List (String × String)
deriving DecidableEq, Repr

/-- `providers.GenerateResponse`. -/
structure GenerateResponse where
  text : String
  tokensUsed : Nat
  finishReason : String
  metadata : List (String × String)
deriving DecidableEq, Repr

/-- A provider stub: a deterministic `Generate` implementation. -/
structure Provider where
  generate : GenerateRequest → Except String GenerateResponse

/-- `kg.Driver.GetAgent`: the lookup key is compared against the `id`
column (`SELECT ... FROM agents WHERE id = ?`). -/
def lookupAgentById (agents : List Agent) (id : String) : Option Agent :=
  agents.find? fun a => a.id == id

/-- Provider-registry lookup: the `o.providers[name]` map access is
modelled as first match in the registration list. -/
def lookupProvider (ps : List (String × Provider)) (name : String) : Option Provider :=
  (ps.find? fun p => p.1 == name).map fun p => p.2

/-- Everything `ExecuteWorkflow` consumes: the workflow, the call-time
variables, the store content, the registered providers, injected store
fault knobs, the clock, and the per-call map iteration orders chosen by
the Go runtime inside `substituteVariables` (indexed by the tick at the
time of the call). -/
structure Env where
  workflow : Workflow
  vars : List (String × String)
  agents : List Agent
  providers : List (String × Provider)
  kg0 : KGState
  createRunErr : Option String
  createArtifactErr : Option String
  timeAt : Nat → Int
  varOrderAt : Nat → List Nat
  resOrderAt : Nat → List Nat

/-- In-loop executor state.  `execOrder`, `reqLog`, `storeLog` and
`passLog` are ghost observation logs; control flow reads only `execOrder`
(the `executedSteps` set), `stepResults`, `kg` and `tick`. -/
structure LoopSt where
  execOrder : List String
  stepResults : List (String × StepResult)
  kg : KGState
  tick : Nat
  reqLog : List GenerateRequest
  storeLog : List StoreOp
  passLog : List (List String)

/-! ## Executor (`internal/orchestrator/orchestrator.go`) -/

/-- `areDependenciesSatisfied`: every dependency name is in the executed
set. -/
def areDependenciesSatisfied (dependencies executed : List String) : Bool :=
  dependencies.all fun d => executed.contains d

/-- Select entries of a list by an index sequence.  Iterating a Go map is
modelled as iterating `permuteByIdx idxs l` where `idxs` is the order the
runtime happened to choose; in a real execution `idxs` is a permutation
of the positions of `l`, and out-of-range indices select nothing. -/
def permuteByIdx {α : Type} : List Nat → List α → List α
  | [], _ => []
  | i :: t, l =>
    match l.get? i with
    | none => permuteByIdx t l
    | some x => x :: permuteByIdx t l

/-- `substituteVariables`: first each workflow variable `k` replaces
`{{.k}}`, then each captured step output replaces `{{.step.output}}`.
Go iterates both maps in unspecified order; the caller passes the entry
sequences in the order the runtime iterated them. -/
def substituteVariables (input : String) (vars : List (String × String))
    (stepResults : List (String × StepResult)) : String :=
  let r := vars.foldl
    (fun acc kv => goReplaceAll acc ("\x7b\x7b." ++ kv.1 ++ "\x7d\x7d") kv.2) input
  stepResults.foldl
    (fun acc kv => goReplaceAll acc ("\x7b\x7b." ++ kv.1 ++ ".output\x7d\x7d") kv.2.output) r

/-- Insert a key-value pair into a key-sorted list (used to model the
sorted map rendering of Go `fmt`). -/
def insertByKey (kv : String × String) : List (String × String) → List (String × String)
  | [] => [kv]
  | h :: t =>
    match compare kv.1 h.1 with
    | .gt => h :: insertByKey kv t
    | _ => kv :: h :: t

/-- Sort an association list by key. -/
def sortByKey (l : List (String × String)) : List (String × String) :=
  l.foldr insertByKey []

/-- Go `fmt.Sprintf("%v", m)` on a string-keyed map: entries in sorted key
order. -/
def fmtMap (m : List (String × String)) : String :=
  "map[" ++ String.intercalate " " ((sortByKey m).map fun kv => kv.1 ++ ":" ++ kv.2) ++ "]"

/-- The stall error message of `ExecuteWorkflow`. -/
def stallMsg : String := "workflow execution stalled - circular dependency or missing step"

/-- Embedding of `executeStep`.  Returns the step result, the Go `error`
return value (`none` is a nil error) and the updated state.  Note the
missing-provider branch: exactly as in the source, it fills the step
result with a failure but returns the stale nil `err` from the earlier
successful `GetAgent` call. -/
def executeStep (env : Env) (runId : String) (step : WorkflowStep) (st : LoopSt) :
    StepResult × Option String × LoopSt :=
  let startT := env.timeAt st.tick
  let st := { st with tick := st.tick + 1 }
  let sr0 : StepResult :=
    { name := step.name, agent := step.agent, status := "running", input := "",
      output := "", error := "", startTime := startT, endTime := none,
      duration := none, metadata := [] }
  match lookupAgentById env.agents step.agent with
  | none =>
    ({ sr0 with status := "failed",
                error := "failed to get agent: sql: no rows in result set" },
     some "sql: no rows in result set", st)
  | some agent =>
    let input := substituteVariables step.input
      (permuteByIdx (env.varOrderAt st.tick) env.vars)
      (permuteByIdx (env.resOrderAt st.tick) st.stepResults)
    match lookupProvider env.providers agent.modelProvider with
    | none =>
      ({ sr0 with status := "failed",
                  error := "provider " ++ sq ++ agent.modelProvider ++ sq ++ " not found" },
       none, st)
    | some provider =>
      let req : GenerateRequest :=
        { prompt := input, systemPrompt := agent.systemPrompt,
          temperature := (7 : Rat) / 10, maxTokens := 1000,
          topP := 0, stop := [], metadata := [] }
      let st := { st with reqLog := st.reqLog ++ [req] }
      match provider.generate req with
      | .error e =>
        ({ sr0 with status := "failed", error := "failed to generate response: " ++ e },
         some e, st)
      | .ok resp =>
        let endT := env.timeAt st.tick
        let st := { st with tick := st.tick + 1 }
        let md := [("tokens_used", toString resp.tokensUsed),
                   ("finish_reason", resp.finishReason)]
        let sr :=
          { sr0 with status := "completed", output := resp.text,
                     endTime := some endT, duration := some (endT - startT),
                     metadata := md }
        let artT := env.timeAt st.tick
        let st := { st with tick := st.tick + 1 }
        let artifact : Artifact :=
          { id := "ART_" ++ step.name ++ "_" ++ toString artT, runId := runId,
            stepName := step.name, agentId := agent.id, content := resp.text,
            contentType := "text/plain", metadata := fmtMap md }
        match env.createArtifactErr with
        | some _ => (sr, none, st)
        | none =>
          (sr, none,
           { st with kg := { st.kg with artifacts := st.kg.artifacts ++ [artifact] },
                     storeLog := st.storeLog ++ [.createArtifact artifact] })

/-- Outcome of one scan pass over the step list. -/
inductive PassOut where
  | abort (sr : StepResult) (err : String) (st : LoopSt)
  | cont (st : LoopSt) (progress : Bool)

/-- One scan pass: the inner `for _, step := range workflow.Steps` loop.
Already-executed steps and steps with unsatisfied dependencies are
skipped; a step-level error aborts the pass; a successful step is marked
executed immediately, so later steps of the same pass see it. -/
def doPass (env : Env) (runId : String) : List WorkflowStep → LoopSt → Bool → PassOut
  | [], st, progress => .cont st progress
  | step :: rest, st, progress =>
    if st.execOrder.contains step.name then doPass env runId rest st progress
    else if areDependenciesSatisfied step.dependsOn st.execOrder then
      match executeStep env runId step st with
      | (sr, some err, st1) => .abort sr err st1
      | (sr, none, st1) =>
        doPass env runId rest
          { st1 with execOrder := st1.execOrder ++ [step.name],
                     stepResults := st1.stepResults ++ [(step.name, sr)] } true
    else doPass env runId rest st progress

/-- Outcome of the outer scheduling loop. -/
inductive ExecOutcome where
  | completed (st : LoopSt)
  | stepFailed (sr : StepResult) (err : String) (st : LoopSt)
  | stalled (st : LoopSt)
  | fuelOut (st : LoopSt)

/-- The outer `for len(executedSteps) < len(workflow.Steps)` loop, with a
fuel bound; `ExecuteWorkflow` supplies fuel `steps.length + 1`, which is
proved sufficient (`execLoop_no_fuelOut`), so `fuelOut` is unreachable
from the top level. -/
def execLoop (env : Env) (runId : String) : Nat → LoopSt → ExecOutcome
  | 0, st => .fuelOut st
  | fuel + 1, st =>
    if st.execOrder.length < env.workflow.steps.length then
      match doPass env runId env.workflow.steps st false with
      | .abort sr err st1 => .stepFailed sr err st1
      | .cont st1 progress =>
        if progress then
          execLoop env runId fuel
            { st1 with passLog := st1.passLog ++ [st1.execOrder.drop st.execOrder.length] }
        else .stalled st1
    else .completed st

/-- `kg.Driver.UpdateRunStatus`: set status, output and error of the run
row with the given id. -/
def updateRunStatusKG (kg : KGState) (runId status outputData errorMessage : String) :
    KGState :=
  { kg with runs := kg.runs.map fun r =>
      if r.id = runId then
        { r with status := status, outputData := outputData, errorMessage := errorMessage }
      else r }

/-- The observable outcome of `ExecuteWorkflow`: the Go return pair
`(result, error)`, the final store state, and the ghost logs. -/
structure ExecFinal where
  result : Option ExecutionResult
  error : Option String
  kg : KGState
  storeLog : List StoreOp
  reqLog : List GenerateRequest
  execOrder : List String
  passLog : List (List String)
  runId : String
  stalled : Bool
  fuelOut : Bool

/-- The run identifier `RUN_<unix time>`, from the first clock read. -/
def mkRunId (env : Env) : String := "RUN_" ++ toString (env.timeAt 0)

/-- The run row inserted by `CreateRun` at workflow start. -/
def mkRun0 (env : Env) : RunRecord :=
  { id := mkRunId env, workflowName := env.workflow.name, status := "running",
    inputData := fmtMap env.vars, outputData := "", errorMessage := "",
    metadata := fmtMap env.workflow.vars }

/-- The loop state right after the successful `CreateRun`: clock reads 0
(run id) and 1 (start time) are spent. -/
def mkSt0 (env : Env) : LoopSt :=
  { execOrder := [], stepResults := [],
    kg := { env.kg0 with runs := env.kg0.runs ++ [mkRun0 env] }, tick := 2,
    reqLog := [], storeLog := [.createRun (mkRun0 env)], passLog := [] }

/-- Embedding of `ExecuteWorkflow`. -/
def ExecuteWorkflow (env : Env) : ExecFinal :=
  let runId := mkRunId env
  let startT := env.timeAt 1
  match env.createRunErr with
  | some e =>
    { result := none, error := some ("failed to create run record: " ++ e),
      kg := env.kg0, storeLog := [], reqLog := [], execOrder := [], passLog := [],
      runId := runId, stalled := false, fuelOut := false }
  | none =>
    match execLoop env runId (env.workflow.steps.length + 1) (mkSt0 env) with
    | .completed st =>
      let endT := env.timeAt st.tick
      let res : ExecutionResult :=
        { runId := runId, status := "completed", startTime := startT,
          endTime := some endT, duration := some (endT - startT),
          steps := st.stepResults, output := [], error := "" }
      { result := some res, error := none,
        kg := updateRunStatusKG st.kg runId "completed" (fmtMap res.output) "",
        storeLog := st.storeLog ++ [.updateRunStatus runId "completed" (fmtMap res.output) ""],
        reqLog := st.reqLog, execOrder := st.execOrder, passLog := st.passLog,
        runId := runId, stalled := false, fuelOut := false }
    | .stepFailed _ err st =>
      let endT := env.timeAt st.tick
      let res : ExecutionResult :=
        { runId := runId, status := "failed", startTime := startT,
          endTime := some endT, duration := some (endT - startT),
          steps := st.stepResults, output := [], error := err }
      { result := some res, error := some err,
        kg := updateRunStatusKG st.kg runId "failed" "" err,
        storeLog := st.storeLog ++ [.updateRunStatus runId "failed" "" err],
        reqLog := st.reqLog, execOrder := st.execOrder, passLog := st.passLog,
        runId := runId, stalled := false, fuelOut := false }
    | .stalled st =>
      { result := none, error := some stallMsg, kg := st.kg, storeLog := st.storeLog,
        reqLog := st.reqLog, execOrder := st.execOrder, passLog := st.passLog,
        runId := runId, stalled := true, fuelOut := false }
    | .fuelOut st =>
      { result := none, error := none, kg := st.kg, storeLog := st.storeLog,
        reqLog := st.reqLog, execOrder := st.execOrder, passLog := st.passLog,
        runId := runId, stalled := false, fuelOut := true }

/-! ## Ollama client request mapping (`internal/providers/ollama/client.go`) -/

/-- The part of `ollama.Client` relevant to request construction. -/
structure OllamaClient where
  baseURL : String
  model : String
deriving DecidableEq, Repr

/-- The wire request built by `ollama.Client.Generate` (its `Options` map
flattened into the two entries the source sets). -/
structure OllamaGenerateRequest where
  model : String
  prompt : String
  system : String
  stream : Bool
  optionsTemperature : Rat
  optionsTopP : Rat
deriving DecidableEq, Repr

/-- `ollama.Client.Generate`, request-construction part: the model name is
the client's own configured model; nothing from the agent reaches it. -/
def mkOllamaGenerateRequest (c : OllamaClient) (req : GenerateRequest) :
    OllamaGenerateRequest :=
  { model := c.model, prompt := req.prompt, system := req.systemPrompt,
    stream := false, optionsTemperature := req.temperature, optionsTopP := req.topP }

/-! ## Specification-side notions used to state the claims -/

/-- A step name is reachable when some step of the workflow carries it and
all of that step's dependencies are themselves reachable names.  Cyclic or
dangling dependency chains are exactly the unreachable names. -/
inductive Reachable (steps : List WorkflowStep) : String → Prop
  | mk (s : WorkflowStep) (hs : s ∈ steps) (hdeps : ∀ d ∈ s.dependsOn, Reachable steps d) :
      Reachable steps s.name

/-- A step can execute without error under `env`: its agent id resolves,
the agent's provider is registered, and the provider stub succeeds on
every request. -/
def StepOK (env : Env) (step : WorkflowStep) : Prop :=
  ∃ a, lookupAgentById env.agents step.agent = some a ∧
    ∃ p, lookupProvider env.providers a.modelProvider = some p ∧
      ∀ req, ∃ resp, p.generate req = .ok resp

/-- Step-result content: everything except timestamps. -/
structure StepResultContent where
  name : String
  agent : String
  status : String
  input : String
  output : String
  error : String
  metadata : List (String × String)
deriving DecidableEq, Repr

/-- Erase timing from a step result. -/
def StepResult.scrub (sr : StepResult) : StepResultContent :=
  { name := sr.name, agent := sr.agent, status := sr.status, input := sr.input,
    output := sr.output, error := sr.error, metadata := sr.metadata }

/-- Run-result content: everything except the identifier and timestamps. -/
structure ResultContent where
  status : String
  steps : List (String × StepResultContent)
  output : List (String × String)
  error : String
deriving DecidableEq, Repr

/-- Erase identifier and timing from an execution result. -/
def ExecutionResult.scrub (r : ExecutionResult) : ResultContent :=
  { status := r.status, steps := r.steps.map fun kv => (kv.1, kv.2.scrub),
    output := r.output, error := r.error }

/-- Run-record content: everything except the identifier. -/
structure RunContent where
  workflowName : String
  status : String
  inputData : String
  outputData : String
  errorMessage : String
  metadata : String
deriving DecidableEq, Repr

/-- Erase the identifier from a stored run. -/
def RunRecord.scrub (r : RunRecord) : RunContent :=
  { workflowName := r.workflowName, status := r.status, inputData := r.inputData,
    outputData := r.outputData, errorMessage := r.errorMessage, metadata := r.metadata }

/-- Artifact content: everything except the identifier fields (`id` embeds
a timestamp, `runId` embeds the run identifier). -/
structure ArtifactContent where
  stepName : String
  agentId : String
  content : String
  contentType : String
  metadata : String
deriving DecidableEq, Repr

/-- Erase identifiers from a stored artifact. -/
def Artifact.scrub (a : Artifact) : ArtifactContent :=
  { stepName := a.stepName, agentId := a.agentId, content := a.content,
    contentType := a.contentType, metadata := a.metadata }

/-- Is a store operation a run-status update? -/
def StoreOp.isUpdate : StoreOp → Bool
  | .updateRunStatus _ _ _ _ => true
  | _ => false

/-- The constant generation parameters every executor-issued request must
carry (C10): temperature 0.7, 1000 max tokens, no top-p, no stop
sequences, no metadata. -/
def reqConst (req : GenerateRequest) : Prop :=
  req.temperature = (7 : Rat) / 10 ∧ req.maxTokens = 1000 ∧ req.topP = 0 ∧
    req.stop = [] ∧ req.metadata = []

/-- The state carried by a pass outcome. -/
def PassOut.st : PassOut → LoopSt
  | .abort _ _ st => st
  | .cont st _ => st

/-- The state carried by a loop outcome. -/
def ExecOutcome.st : ExecOutcome → LoopSt
  | .completed st => st
  | .stepFailed _ _ st => st
  | .stalled st => st
  | .fuelOut st => st

/-- `DepSeq steps order` says `order` is a dependency-closed execution
sequence: each executed name belongs to a step of the workflow all of
whose dependencies already occur earlier in the sequence. -/
inductive DepSeq (steps : List WorkflowStep) : List String → Prop
  | nil : DepSeq steps []
  | snoc (order : List String) (s : WorkflowStep) (hs : s ∈ steps)
      (hdeps : ∀ d ∈ s.dependsOn, d ∈ order) (h : DepSeq steps order) :
      DepSeq steps (order ++ [s.name])

/-- Replace the clock of an environment, keeping everything else. -/
def Env.withTime (env : Env) (t : Nat → Int) : Env := { env with timeAt := t }

/-- Time-insensitive equivalence of loop states: equal except in the
values derived from the clock (timestamps inside step results, artifact
and run identifiers). -/
def LoopSt.Sim (a b : LoopSt) : Prop :=
  a.execOrder = b.execOrder ∧
  a.stepResults.map (fun kv => (kv.1, kv.2.scrub)) =
    b.stepResults.map (fun kv => (kv.1, kv.2.scrub)) ∧
  a.kg.runs.map RunRecord.scrub = b.kg.runs.map RunRecord.scrub ∧
  a.kg.artifacts.map Artifact.scrub = b.kg.artifacts.map Artifact.scrub ∧
  a.tick = b.tick ∧
  a.reqLog = b.reqLog ∧
  a.passLog = b.passLog

/-- Time-insensitive equivalence of pass outcomes. -/
def PassOut.Sim : PassOut → PassOut → Prop
  | .abort sr1 e1 a, .abort sr2 e2 b =>
    sr1.scrub = sr2.scrub ∧ e1 = e2 ∧ LoopSt.Sim a b
  | .cont a p1, .cont b p2 => p1 = p2 ∧ LoopSt.Sim a b
  | _, _ => False

/-- Time-insensitive equivalence of loop outcomes. -/
def ExecOutcome.Sim : ExecOutcome → ExecOutcome → Prop
  | .completed a, .completed b => LoopSt.Sim a b
  | .stepFailed sr1 e1 a, .stepFailed sr2 e2 b =>
    sr1.scrub = sr2.scrub ∧ e1 = e2 ∧ LoopSt.Sim a b
  | .stalled a, .stalled b => LoopSt.Sim a b
  | .fuelOut a, .fuelOut b => LoopSt.Sim a b
  | _, _ => False

/-! ## Concrete fixtures used by counterexamples and witnesses -/

/-- The fixed response of the provider stub. -/
def stubResp : GenerateResponse :=
  { text := "OUT", tokensUsed := 3, finishReason := "stop", metadata := [] }

/-- A provider stub returning a fixed output. -/
def stubProvider : Provider :=
  { generate := fun _ => .ok stubResp }

/-- An agent whose id is `a1` and whose declared provider is `ollama`. -/
def agentA1 : Agent :=
  { id := "a1", name := "agent-one", typ := "worker", description := "",
    modelProvider := "ollama", modelName := "m", systemPrompt := "sp" }

/-- First step of the fixtures: no dependencies. -/
def stepS1 : WorkflowStep :=
  { name := "s1", agent := "a1", input := "hi", dependsOn := [], successWhen := "" }

/-- Second step of the chain fixture: depends on `s1` and templates its
output. -/
def stepS2 : WorkflowStep :=
  { name := "s2", agent := "a1", input := "use \x7b\x7b.s1.output\x7d\x7d",
    dependsOn := ["s1"], successWhen := "" }

/-- A single-step workflow bound to `agentA1`. -/
def singleStepWorkflow : Workflow :=
  { name := "w", description := "", agents := ["a1"], steps := [stepS1], vars := [] }

/-- The single-step workflow with no provider registered under `ollama`:
the configuration error of C1. -/
def envMissingProvider : Env :=
  { workflow := singleStepWorkflow,
    vars := [], agents := [agentA1], providers := [],
    kg0 := { runs := [], artifacts := [] },
    createRunErr := none, createArtifactErr := none, timeAt := fun _ => 0,
    varOrderAt := fun _ => List.range 8, resOrderAt := fun _ => List.range 8 }

/-- An agent whose `name` is `planner` but whose `id` is not. -/
def agentNamedPlanner : Agent :=
  { id := "AGENT_1", name := "planner", typ := "planner", description := "",
    modelProvider := "p", modelName := "m", systemPrompt := "sys" }

/-- An agent whose `id` is `planner` but whose `name` is not. -/
def agentIdPlanner : Agent :=
  { id := "planner", name := "not-planner", typ := "planner", description := "",
    modelProvider := "p", modelName := "m", systemPrompt := "sys" }

/-- A single-step workflow whose step references `planner`. -/
def plannerWorkflow : Workflow :=
  { name := "w", description := "", agents := ["planner"],
    steps := [{ name := "s1", agent := "planner", input := "go", dependsOn := [],
                successWhen := "" }],
    vars := [] }

/-- Store contains an agent *named* `planner` (id differs). -/
def envAgentByName : Env :=
  { workflow := plannerWorkflow, vars := [], agents := [agentNamedPlanner],
    providers := [("p", stubProvider)], kg0 := { runs := [], artifacts := [] },
    createRunErr := none, createArtifactErr := none, timeAt := fun _ => 0,
    varOrderAt := fun _ => List.range 8, resOrderAt := fun _ => List.range 8 }

/-- Store contains an agent whose *id* is `planner` (name differs). -/
def envAgentById : Env :=
  { workflow := plannerWorkflow, vars := [], agents := [agentIdPlanner],
    providers := [("p", stubProvider)], kg0 := { runs := [], artifacts := [] },
    createRunErr := none, createArtifactErr := none, timeAt := fun _ => 0,
    varOrderAt := fun _ => List.range 8, resOrderAt := fun _ => List.range 8 }

/-- The two-step cyclic workflow of the spec scenario: `a` depends on `b`,
`b` depends on `a`. -/
def cycleWorkflow : Workflow :=
  { name := "w", description := "", agents := [],
    steps := [{ name := "a", agent := "x", input := "", dependsOn := ["b"],
                successWhen := "" },
              { name := "b", agent := "x", input := "", dependsOn := ["a"],
                successWhen := "" }],
    vars := [] }

/-- Environment for the cyclic workflow. -/
def envCycle : Env :=
  { workflow := cycleWorkflow,
    vars := [], agents := [], providers := [], kg0 := { runs := [], artifacts := [] },
    createRunErr := none, createArtifactErr := none, timeAt := fun _ => 0,
    varOrderAt := fun _ => List.range 8, resOrderAt := fun _ => List.range 8 }

/-- A two-step chain workflow: `s2` depends on `s1` and templates its
output into the input text. -/
def chainWorkflow : Workflow :=
  { name := "w", description := "", agents := ["a1"], steps := [stepS1, stepS2],
    vars := [] }

/-- The chain workflow with a working agent and provider, used by liveness
and determinism witnesses. -/
def envChain : Env :=
  { workflow := chainWorkflow,
    vars := [], agents := [agentA1], providers := [("ollama", stubProvider)],
    kg0 := { runs := [], artifacts := [] },
    createRunErr := none, createArtifactErr := none, timeAt := fun _ => 0,
    varOrderAt := fun _ => List.range 8, resOrderAt := fun _ => List.range 8 }

/-- The chain environment with an injected artifact-write failure. -/
def envArtifactFail : Env := { envChain with createArtifactErr := some "boom" }

/-- The loop state right after a successful `CreateRun` over an empty
store, with empty ghost logs. -/
def stInit : LoopSt :=
  { execOrder := [], stepResults := [], kg := { runs := [], artifacts := [] },
    tick := 2, reqLog := [], storeLog := [], passLog := [] }

/-- The request issued for `stepS1` by the chain fixture run. -/
def req1 : GenerateRequest :=
  { prompt := "hi", systemPrompt := "sp", maxTokens := 1000,
    temperature := (7 : Rat) / 10, topP := 0, stop := [], metadata := [] }

/-- An Ollama client fixture. -/
def ollamaFixture : OllamaClient := { baseURL := "http://localhost", model := "llama2" }

/-- A provider echoing the rendered prompt back as the output text (a
prompt-dependent stub). -/
def echoProvider : Provider :=
  { generate := fun req =>
      .ok { text := req.prompt, tokensUsed := 1, finishReason := "stop", metadata := [] } }

/-- A step whose input is the single placeholder `{{.a}}`. -/
def stepTmpl : WorkflowStep :=
  { name := "s1", agent := "a1", input := "\x7b\x7b.a\x7d\x7d", dependsOn := [],
    successWhen := "" }

/-- A single-step workflow around `stepTmpl`. -/
def orderWorkflow : Workflow :=
  { name := "w", description := "", agents := ["a1"], steps := [stepTmpl], vars := [] }

/-- An environment with interacting variables: `a` expands to the
placeholder of `b` (`\x7b\x7b.b\x7d\x7d` the string), `b` expands to `X`.
The iteration order oracle for the variables map lists the two entries in
position order at every call. -/
def envOrderBase : Env :=
  { workflow := orderWorkflow,
    vars := [("a", "\x7b\x7b.b\x7d\x7d"), ("b", "X")],
    agents := [agentA1], providers := [("ollama", echoProvider)],
    kg0 := { runs := [], artifacts := [] },
    createRunErr := none, createArtifactErr := none, timeAt := fun _ => 0,
    varOrderAt := fun _ => [0, 1], resOrderAt := fun _ => List.range 8 }

/-- The identical environment under the opposite iteration order for the
variables map — the other admissible outcome of the same program run. -/
def envOrderSwapped : Env := { envOrderBase with varOrderAt := fun _ => [1, 0] }

/-! ## Theorems -/

/-- C8.  The claim states that a `MATCH ... WHERE ...` query over any of the
four supported labels translates, without error, to
`SELECT * FROM <collection> WHERE <condition>` with nothing after the
condition.  The code disagrees on both points, contradicting its own doc
comment (which shows `MATCH (n:Agent) WHERE n.name = "planner" RETURN n`
mapping to a SELECT without the `RETURN` text): the trailing `RETURN`
projection is kept in the emitted SQL, and every label other than `Agent`
is rejected with an unsupported-entity error. -/
theorem whereQueryKeepsReturnText :
    ParseQuery "MATCH (n:Agent) WHERE n.name = \"planner\" RETURN n"
      = .ok ("SELECT * FROM agents WHERE name = " ++ sq ++ "planner" ++ sq ++ " RETURN n") ∧
    ParseQuery "MATCH (n:Claim) WHERE n.content = \"x\" RETURN n"
      = .error "unsupported entity type in WHERE query" ∧
    ParseQuery "MATCH (n:Run) WHERE n.id = \"r\" RETURN n"
      = .error "unsupported entity type in WHERE query" ∧
    ParseQuery "MATCH (n:Artifact) WHERE n.id = \"a\" RETURN n"
      = .error "unsupported entity type in WHERE query" := by
  refine ⟨?_, ?_, ?_, ?_⟩ <;> rfl

/-- C9.  Every `MATCH` query whose text contains the aggregate `COUNT`
token and whose label, in the fixed source dispatch order, is `l`,
translates to an unfiltered `SELECT COUNT(*)` over the mapped collection;
any `WHERE` clause in the query is ignored because the aggregate branch is
checked first. -/
theorem countQueryTranslation (q : String) (l : EntityLabel)
    (hm : goStartsWith (goToUpper (goTrimSpace q)) "MATCH" = true)
    (hc : goContains q "COUNT" = true)
    (hl : goContains q (labelToken l) = true)
    (he : noEarlierLabel q l = true) :
    ParseQuery q = .ok ("SELECT COUNT(*) FROM " ++ labelTable l) := by
  cases l <;>
    simp_all [ParseQuery, parseMatchQuery, parseCountQuery, noEarlierLabel,
      labelToken, labelTable]

/-- Witness for C9: both the plain aggregate query of the spec scenario and
an aggregate query carrying a `WHERE` clause translate to the unfiltered
count over `claims`. -/
theorem countQueryTranslation_witness :
    ParseQuery "MATCH (n:Claim) RETURN COUNT(n)" = .ok "SELECT COUNT(*) FROM claims" ∧
    ParseQuery "MATCH (n:Claim) WHERE n.x = \"y\" RETURN COUNT(n)"
      = .ok "SELECT COUNT(*) FROM claims" :=
  ⟨countQueryTranslation "MATCH (n:Claim) RETURN COUNT(n)" .claimL
      (by decide) (by decide) (by decide) (by decide),
   countQueryTranslation "MATCH (n:Claim) WHERE n.x = \"y\" RETURN COUNT(n)" .claimL
      (by decide) (by decide) (by decide) (by decide)⟩

/-- C1.  The claim says any step execution failure, including a missing
provider registration, aborts the run: Run marked `failed`, non-nil
error to the caller.  The code violates this for the missing-provider
case: `executeStep` fills the step result with `failed` and the message
`provider ... not found` but returns the stale nil `err` of the earlier
successful `GetAgent` call, so `ExecuteWorkflow` treats the step as
executed, continues, returns a nil error, and marks the Run `completed`
even though the step result says `failed`. -/
theorem missingProviderNotFatal :
    (ExecuteWorkflow envMissingProvider).error = none ∧
    (ExecuteWorkflow envMissingProvider).result.map (fun r => r.status) = some "completed" ∧
    ((ExecuteWorkflow envMissingProvider).result.map fun r =>
        r.steps.map fun kv => (kv.1, kv.2.status, kv.2.error))
      = some [("s1", "failed", "provider " ++ sq ++ "ollama" ++ sq ++ " not found")] ∧
    ((ExecuteWorkflow envMissingProvider).kg.runs.map fun r => r.status) = ["completed"] := by
  refine ⟨rfl, rfl, rfl, rfl⟩

/-- C6.  Artifact persistence is best-effort: when the agent resolves, the
provider is registered, and its `Generate` call succeeds, an injected
`CreateArtifact` failure still yields a `completed` step result with a
nil step error (so the caller continues the run), the generated output
is recorded in the result, and the store is left unchanged. -/
theorem artifactWriteFailureBestEffort (env : Env) (runId : String)
    (step : WorkflowStep) (st : LoopSt) (a : Agent) (p : Provider)
    (resp : GenerateResponse) (msg : String)
    (ha : lookupAgentById env.agents step.agent = some a)
    (hp : lookupProvider env.providers a.modelProvider = some p)
    (hg : p.generate
        { prompt := substituteVariables step.input
            (permuteByIdx (env.varOrderAt (st.tick + 1)) env.vars)
            (permuteByIdx (env.resOrderAt (st.tick + 1)) st.stepResults),
          systemPrompt := a.systemPrompt, temperature := (7 : Rat) / 10,
          maxTokens := 1000, topP := 0, stop := [], metadata := [] } = .ok resp)
    (hfail : env.createArtifactErr = some msg) :
    (executeStep env runId step st).1.status = "completed" ∧
    (executeStep env runId step st).2.1 = none ∧
    (executeStep env runId step st).1.output = resp.text ∧
    (executeStep env runId step st).2.2.kg = st.kg := by
  simp [executeStep, ha, hp, hg, hfail]

/-- Witness for C6 at the chain fixture with a forced artifact-write
failure. -/
theorem artifactWriteFailureBestEffort_witness :
    (executeStep envArtifactFail "RUN_0" stepS1 stInit).1.status = "completed" ∧
    (executeStep envArtifactFail "RUN_0" stepS1 stInit).2.1 = none ∧
    (executeStep envArtifactFail "RUN_0" stepS1 stInit).1.output = stubResp.text ∧
    (executeStep envArtifactFail "RUN_0" stepS1 stInit).2.2.kg = stInit.kg :=
  artifactWriteFailureBestEffort envArtifactFail "RUN_0" stepS1 stInit agentA1
    stubProvider stubResp "boom" rfl rfl rfl rfl

/-- C7 counterexample.  The claim says the step's agent field is matched
against the stored agents' `name` field.  It is matched against `id`:
with an agent *named* `planner` (id `AGENT_1`) in the store, the step
referencing `planner` fails and the run aborts; with an agent whose *id*
is `planner` but whose name is not, the run completes. -/
theorem agentLookupByNameRefuted :
    (envAgentByName.agents.map fun a => a.name) = ["planner"] ∧
    (ExecuteWorkflow envAgentByName).error = some "sql: no rows in result set" ∧
    (ExecuteWorkflow envAgentByName).result.map (fun r => r.status) = some "failed" ∧
    (envAgentById.agents.all fun a => a.name != "planner") = true ∧
    (ExecuteWorkflow envAgentById).error = none ∧
    (ExecuteWorkflow envAgentById).result.map (fun r => r.status) = some "completed" := by
  refine ⟨rfl, rfl, rfl, rfl, rfl, rfl⟩

/-- C7 (amended).  The executor resolves the step's agent by matching the
step's agent field against the stored agents' `id` field; when no agent
with that id exists, the step fails and the run aborts: the result is
`failed`, the error is returned, and every run row the execution wrote
is marked `failed`. -/
theorem agentResolvedById (env : Env) (s : WorkflowStep)
    (hsteps : env.workflow.steps = [s]) (hdeps : s.dependsOn = [])
    (hrun : env.createRunErr = none)
    (hnone : lookupAgentById env.agents s.agent = none) :
    (ExecuteWorkflow env).error.isSome = true ∧
    (ExecuteWorkflow env).result.map (fun r => r.status) = some "failed" ∧
    ∀ r ∈ (ExecuteWorkflow env).kg.runs, r ∉ env.kg0.runs → r.status = "failed" := by
  simp only [ExecuteWorkflow, mkRunId, mkRun0, mkSt0, hrun, hsteps, execLoop,
    doPass, executeStep, hnone, hdeps, areDependenciesSatisfied, List.all_nil,
    List.length_singleton, List.length_nil, Nat.zero_lt_one, if_true,
    List.contains_nil, Bool.false_eq_true, if_false]
  refine ⟨rfl, rfl, ?_⟩
  intro r hr hnot
  simp only [updateRunStatusKG, List.mem_map, List.mem_append,
    List.mem_singleton] at hr
  obtain ⟨r0, hr0, hfr⟩ := hr
  rcases hr0 with hr0 | rfl
  · by_cases hid : r0.id = "RUN_" ++ toString (env.timeAt 0)
    · rw [← hfr]; simp [hid]
    · rw [← hfr] at hnot; simp [hid] at hnot
      exact absurd hr0 hnot
  · rw [← hfr]; simp

/-- Dependency satisfaction is monotone in the executed set. -/
theorem areDependenciesSatisfied_mono (d o e : List String)
    (h : areDependenciesSatisfied d o = true) :
    areDependenciesSatisfied d (o ++ e) = true := by
  simp only [areDependenciesSatisfied, List.all_eq_true] at h ⊢
  intro x hx
  have hmem : x ∈ o := by simpa using h x hx
  simp [List.mem_append, hmem]

/-- Frame lemma for `executeStep`: it never touches the executed set, the
collected step results, the pass log or the runs table; it extends the
request log only with constant-parameter requests and the store log only
with artifact creations. -/
theorem executeStep_frame (env : Env) (runId : String) (step : WorkflowStep)
    (st : LoopSt) :
    (executeStep env runId step st).2.2.execOrder = st.execOrder ∧
    (executeStep env runId step st).2.2.stepResults = st.stepResults ∧
    (executeStep env runId step st).2.2.passLog = st.passLog ∧
    (executeStep env runId step st).2.2.kg.runs = st.kg.runs ∧
    (∃ dr, (executeStep env runId step st).2.2.reqLog = st.reqLog ++ dr ∧
      ∀ r ∈ dr, reqConst r) ∧
    (∃ ds, (executeStep env runId step st).2.2.storeLog = st.storeLog ++ ds ∧
      ∀ op ∈ ds, op.isUpdate = false) := by
  unfold executeStep
  dsimp only
  split
  · exact ⟨rfl, rfl, rfl, rfl, ⟨[], by simp, by simp⟩, ⟨[], by simp, by simp⟩⟩
  · split
    · exact ⟨rfl, rfl, rfl, rfl, ⟨[], by simp, by simp⟩, ⟨[], by simp, by simp⟩⟩
    · split
      · refine ⟨rfl, rfl, rfl, rfl, ⟨[_], rfl, ?_⟩, ⟨[], by simp, by simp⟩⟩
        intro r hr
        simp only [List.mem_singleton] at hr
        subst hr
        exact ⟨rfl, rfl, rfl, rfl, rfl⟩
      · split
        · refine ⟨rfl, rfl, rfl, rfl, ⟨[_], rfl, ?_⟩, ⟨[], by simp, by simp⟩⟩
          intro r hr
          simp only [List.mem_singleton] at hr
          subst hr
          exact ⟨rfl, rfl, rfl, rfl, rfl⟩
        · refine ⟨rfl, rfl, rfl, rfl, ⟨[_], rfl, ?_⟩, ⟨[_], rfl, ?_⟩⟩
          · intro r hr
            simp only [List.mem_singleton] at hr
            subst hr
            exact ⟨rfl, rfl, rfl, rfl, rfl⟩
          · intro op hop
            simp only [List.mem_singleton] at hop
            subst hop
            rfl

/-- Frame lemma for one scan pass: the executed-step delta is recorded in
declaration order (a sublist of the scanned names), the runs table and
pass log are untouched, and the request and store logs only grow with
constant-parameter requests and artifact creations. -/
theorem doPass_frame (env : Env) (runId : String) :
    ∀ (l : List WorkflowStep) (st : LoopSt) (progress : Bool),
      (∃ dp, (doPass env runId l st progress).st.stepResults = st.stepResults ++ dp ∧
        (doPass env runId l st progress).st.execOrder = st.execOrder ++ dp.map Prod.fst ∧
        (dp.map Prod.fst).Sublist (l.map WorkflowStep.name)) ∧
      (doPass env runId l st progress).st.kg.runs = st.kg.runs ∧
      (doPass env runId l st progress).st.passLog = st.passLog ∧
      (∃ dr, (doPass env runId l st progress).st.reqLog = st.reqLog ++ dr ∧
        ∀ r ∈ dr, reqConst r) ∧
      (∃ ds, (doPass env runId l st progress).st.storeLog = st.storeLog ++ ds ∧
        ∀ op ∈ ds, op.isUpdate = false) := by
  intro l
  induction l with
  | nil =>
    intro st progress
    exact ⟨⟨[], by simp [doPass, PassOut.st], by simp [doPass, PassOut.st],
      by simp⟩, by simp [doPass, PassOut.st], by simp [doPass, PassOut.st],
      ⟨[], by simp [doPass, PassOut.st], by simp⟩,
      ⟨[], by simp [doPass, PassOut.st], by simp⟩⟩
  | cons step rest ih =>
    intro st progress
    simp only [doPass]
    split
    · obtain ⟨⟨dp, h1, h2, h3⟩, h4, h5, hreq, hstore⟩ := ih st progress
      exact ⟨⟨dp, h1, h2, h3.cons _⟩, h4, h5, hreq, hstore⟩
    · split
      · rcases hE : executeStep env runId step st with ⟨sr, e, st1⟩
        have hF := executeStep_frame env runId step st
        rw [hE] at hF
        dsimp only at hF
        obtain ⟨f1, f2, f3, f4, ⟨dr1, hdr1, hdr1c⟩, ⟨ds1, hds1, hds1c⟩⟩ := hF
        cases e with
        | some err =>
          refine ⟨⟨[], by simpa using f2, by simpa using f1, by simp⟩,
            by simpa using f4, by simpa using f3,
            ⟨dr1, by simpa using hdr1, hdr1c⟩,
            ⟨ds1, by simpa using hds1, hds1c⟩⟩
        | none =>
          obtain ⟨⟨dp2, g1, g2, g3⟩, g4, g5, ⟨dr2, hdr2, hdr2c⟩, ⟨ds2, hds2, hds2c⟩⟩ :=
            ih { st1 with execOrder := st1.execOrder ++ [step.name],
                          stepResults := st1.stepResults ++ [(step.name, sr)] } true
          refine ⟨⟨(step.name, sr) :: dp2, ?_, ?_, ?_⟩, ?_, ?_, ?_, ?_⟩
          · rw [g1]; simp [f2]
          · rw [g2]; simp [f1]
          · simpa using g3.cons₂ step.name
          · rw [g4]; simpa using f4
          · rw [g5]; simpa using f3
          · exact ⟨dr1 ++ dr2, by rw [hdr2]; simp [hdr1, List.append_assoc],
              fun r hr => (List.mem_append.mp hr).elim (hdr1c r) (hdr2c r)⟩
          · exact ⟨ds1 ++ ds2, by rw [hds2]; simp [hds1, List.append_assoc],
              fun op hop => (List.mem_append.mp hop).elim (hds1c op) (hds2c op)⟩
      · obtain ⟨⟨dp, h1, h2, h3⟩, h4, h5, hreq, hstore⟩ := ih st progress
        exact ⟨⟨dp, h1, h2, h3.cons _⟩, h4, h5, hreq, hstore⟩

/-- A scan pass never executes the same step name twice: it preserves
distinctness of the executed sequence. -/
theorem doPass_nodup (env : Env) (runId : String) :
    ∀ (l : List WorkflowStep) (st : LoopSt) (progress : Bool),
      st.execOrder.Nodup → (doPass env runId l st progress).st.execOrder.Nodup := by
  intro l
  induction l with
  | nil => intro st progress h; simpa [doPass, PassOut.st] using h
  | cons step rest ih =>
    intro st progress h
    simp only [doPass]
    split
    · exact ih st progress h
    · split
      · rcases hE : executeStep env runId step st with ⟨sr, e, st1⟩
        have hF := executeStep_frame env runId step st
        rw [hE] at hF
        dsimp only at hF
        cases e with
        | some err => simpa [PassOut.st, hF.1] using h
        | none =>
          apply ih
          have hnot : step.name ∉ st.execOrder := by
            rename_i hcon _
            simpa using hcon
          simp only [hF.1]
          simp [List.nodup_append, h, hnot]
      · exact ih st progress h

/-- A scan pass preserves dependency-closedness of the executed sequence:
each newly executed step belongs to the scanned list and had all its
dependencies already executed. -/
theorem doPass_depSeq (env : Env) (runId : String) (steps0 : List WorkflowStep) :
    ∀ (l : List WorkflowStep) (st : LoopSt) (progress : Bool),
      (∀ x ∈ l, x ∈ steps0) → DepSeq steps0 st.execOrder →
      DepSeq steps0 (doPass env runId l st progress).st.execOrder := by
  intro l
  induction l with
  | nil => intro st progress _ h; simpa [doPass, PassOut.st] using h
  | cons step rest ih =>
    intro st progress hsub h
    simp only [doPass]
    split
    · exact ih st progress (fun x hx => hsub x (List.mem_cons_of_mem _ hx)) h
    · split
      · rcases hE : executeStep env runId step st with ⟨sr, e, st1⟩
        have hF := executeStep_frame env runId step st
        rw [hE] at hF
        dsimp only at hF
        cases e with
        | some err => simpa [PassOut.st, hF.1] using h
        | none =>
          apply ih _ _ (fun x hx => hsub x (List.mem_cons_of_mem _ hx))
          rename_i hdeps
          have hdeps2 : ∀ d ∈ step.dependsOn, d ∈ st.execOrder := by
            simp only [areDependenciesSatisfied, List.all_eq_true] at hdeps
            intro d hd
            simpa using hdeps d hd
          simp only [hF.1]
          exact DepSeq.snoc _ step (hsub step (List.mem_cons_self _ _)) hdeps2 h
      · exact ih st progress (fun x hx => hsub x (List.mem_cons_of_mem _ hx)) h

/-- If a pass started with the progress flag down and came back with it
up, the executed sequence strictly grew. -/
theorem doPass_cont_length (env : Env) (runId : String) :
    ∀ (l : List WorkflowStep) (st st1 : LoopSt),
      doPass env runId l st false = .cont st1 true →
      st.execOrder.length < st1.execOrder.length := by
  intro l
  induction l with
  | nil =>
    intro st st1 h
    simp only [doPass] at h
    cases h
  | cons step rest ih =>
    intro st st1 h
    simp only [doPass] at h
    split at h
    · exact ih st st1 h
    · split at h
      · rcases hE : executeStep env runId step st with ⟨sr, e, st2⟩
        rw [hE] at h
        have hF := executeStep_frame env runId step st
        rw [hE] at hF
        dsimp only at hF
        cases e with
        | some err => dsimp only at h; cases h
        | none =>
          dsimp only at h
          have hframe := doPass_frame env runId rest
            { st2 with execOrder := st2.execOrder ++ [step.name],
                       stepResults := st2.stepResults ++ [(step.name, sr)] } true
          rw [h] at hframe
          obtain ⟨⟨dp, _, h2, _⟩, _⟩ := hframe
          dsimp only [PassOut.st] at h2
          rw [hF.1] at h2
          rw [h2]
          simp only [List.length_append, List.length_singleton, List.length_map]
          omega
      · exact ih st st1 h

/-- Frame lemma for the scheduling loop: runs are never written during the
loop, the request log only collects constant-parameter requests, the
store log only collects artifact creations, and every pass recorded in
the pass log executed its steps in declaration order. -/
theorem execLoop_frame (env : Env) (runId : String) :
    ∀ (fuel : Nat) (st : LoopSt),
      (∃ dp, (execLoop env runId fuel st).st.stepResults = st.stepResults ++ dp ∧
        (execLoop env runId fuel st).st.execOrder = st.execOrder ++ dp.map Prod.fst) ∧
      (execLoop env runId fuel st).st.kg.runs = st.kg.runs ∧
      (∃ dr, (execLoop env runId fuel st).st.reqLog = st.reqLog ++ dr ∧
        ∀ r ∈ dr, reqConst r) ∧
      (∃ ds, (execLoop env runId fuel st).st.storeLog = st.storeLog ++ ds ∧
        ∀ op ∈ ds, op.isUpdate = false) ∧
      (∀ p ∈ (execLoop env runId fuel st).st.passLog,
        p ∈ st.passLog ∨ p.Sublist (env.workflow.steps.map WorkflowStep.name)) := by
  intro fuel
  induction fuel with
  | zero =>
    intro st
    exact ⟨⟨[], by simp [execLoop, ExecOutcome.st], by simp [execLoop, ExecOutcome.st]⟩,
      by simp [execLoop, ExecOutcome.st], ⟨[], by simp [execLoop, ExecOutcome.st], by simp⟩,
      ⟨[], by simp [execLoop, ExecOutcome.st], by simp⟩,
      fun p hp => Or.inl (by simpa [execLoop, ExecOutcome.st] using hp)⟩
  | succ fuel ih =>
    intro st
    simp only [execLoop]
    split
    · rcases hP : doPass env runId env.workflow.steps st false with ⟨sr, err, st1⟩ | ⟨st1, progress⟩
      · have hF := doPass_frame env runId env.workflow.steps st false
        rw [hP] at hF
        dsimp only [PassOut.st] at hF
        obtain ⟨⟨dp, h1, h2, h3⟩, h4, h5, hr, hs⟩ := hF
        dsimp only [ExecOutcome.st]
        exact ⟨⟨dp, h1, h2⟩, h4, hr, hs, fun p hp => Or.inl (h5 ▸ hp)⟩
      · have hF := doPass_frame env runId env.workflow.steps st false
        rw [hP] at hF
        dsimp only [PassOut.st] at hF
        obtain ⟨⟨dp, h1, h2, h3⟩, h4, h5, ⟨dr1, hr1, hr1c⟩, ⟨ds1, hs1, hs1c⟩⟩ := hF
        dsimp only
        split
        · have hdrop : st1.execOrder.drop st.execOrder.length = dp.map Prod.fst := by
            rw [h2]; exact List.drop_left _ _
          obtain ⟨⟨dp2, g1, g2⟩, g4, ⟨dr2, gr2, gr2c⟩, ⟨ds2, gs2, gs2c⟩, g5⟩ :=
            ih { st1 with passLog := st1.passLog ++ [st1.execOrder.drop st.execOrder.length] }
          refine ⟨⟨dp ++ dp2, ?_, ?_⟩, ?_, ?_, ?_, ?_⟩
          · rw [g1]; dsimp only; rw [h1, List.append_assoc]
          · rw [g2]; dsimp only; rw [h2, List.map_append, List.append_assoc]
          · rw [g4]; dsimp only; exact h4
          · exact ⟨dr1 ++ dr2, by rw [gr2]; dsimp only; rw [hr1, List.append_assoc],
              fun r hr => (List.mem_append.mp hr).elim (hr1c r) (gr2c r)⟩
          · exact ⟨ds1 ++ ds2, by rw [gs2]; dsimp only; rw [hs1, List.append_assoc],
              fun op hop => (List.mem_append.mp hop).elim (hs1c op) (gs2c op)⟩
          · intro p hp
            rcases g5 p hp with hmem | hsub
            · dsimp only at hmem
              rw [h5, hdrop] at hmem
              rcases List.mem_append.mp hmem with hmem2 | hmem2
              · exact Or.inl hmem2
              · simp only [List.mem_singleton] at hmem2
                subst hmem2
                exact Or.inr h3
            · exact Or.inr hsub
        · dsimp only [ExecOutcome.st]
          exact ⟨⟨dp, h1, h2⟩, h4, ⟨dr1, hr1, hr1c⟩, ⟨ds1, hs1, hs1c⟩,
            fun p hp => Or.inl (h5 ▸ hp)⟩
    · exact ⟨⟨[], by simp [ExecOutcome.st], by simp [ExecOutcome.st]⟩,
        by simp [ExecOutcome.st], ⟨[], by simp [ExecOutcome.st], by simp⟩,
        ⟨[], by simp [ExecOutcome.st], by simp⟩, fun p hp => Or.inl hp⟩

/-- The scheduling loop preserves distinctness of the executed sequence. -/
theorem execLoop_nodup (env : Env) (runId : String) :
    ∀ (fuel : Nat) (st : LoopSt),
      st.execOrder.Nodup → (execLoop env runId fuel st).st.execOrder.Nodup := by
  intro fuel
  induction fuel with
  | zero => intro st h; simpa [execLoop, ExecOutcome.st] using h
  | succ fuel ih =>
    intro st h
    simp only [execLoop]
    split
    · rcases hP : doPass env runId env.workflow.steps st false with ⟨sr, err, st1⟩ | ⟨st1, progress⟩
      · have := doPass_nodup env runId env.workflow.steps st false h
        rw [hP] at this
        dsimp only [PassOut.st] at this
        dsimp only [ExecOutcome.st]
        exact this
      · have hN := doPass_nodup env runId env.workflow.steps st false h
        rw [hP] at hN
        dsimp only [PassOut.st] at hN
        dsimp only
        split
        · exact ih _ hN
        · dsimp only [ExecOutcome.st]; exact hN
    · dsimp only [ExecOutcome.st]; exact h

/-- The scheduling loop preserves dependency-closedness of the executed
sequence. -/
theorem execLoop_depSeq (env : Env) (runId : String) :
    ∀ (fuel : Nat) (st : LoopSt),
      DepSeq env.workflow.steps st.execOrder →
      DepSeq env.workflow.steps (execLoop env runId fuel st).st.execOrder := by
  intro fuel
  induction fuel with
  | zero => intro st h; simpa [execLoop, ExecOutcome.st] using h
  | succ fuel ih =>
    intro st h
    simp only [execLoop]
    split
    · rcases hP : doPass env runId env.workflow.steps st false with ⟨sr, err, st1⟩ | ⟨st1, progress⟩
      · have := doPass_depSeq env runId env.workflow.steps env.workflow.steps st false
          (fun x hx => hx) h
        rw [hP] at this
        dsimp only [PassOut.st] at this
        dsimp only [ExecOutcome.st]
        exact this
      · have hD := doPass_depSeq env runId env.workflow.steps env.workflow.steps st false
          (fun x hx => hx) h
        rw [hP] at hD
        dsimp only [PassOut.st] at hD
        dsimp only
        split
        · exact ih _ hD
        · dsimp only [ExecOutcome.st]; exact hD
    · dsimp only [ExecOutcome.st]; exact h

/-- The fuel bound `steps.length + 1` used by `ExecuteWorkflow` is
sufficient: the loop never runs out of fuel. -/
theorem execLoop_no_fuelOut (env : Env) (runId : String) :
    ∀ (fuel : Nat) (st : LoopSt),
      env.workflow.steps.length - st.execOrder.length < fuel →
      ∀ st2, execLoop env runId fuel st ≠ .fuelOut st2 := by
  intro fuel
  induction fuel with
  | zero => intro st h; omega
  | succ fuel ih =>
    intro st h st2
    simp only [execLoop]
    split
    · rcases hP : doPass env runId env.workflow.steps st false with ⟨sr, err, st1⟩ | ⟨st1, progress⟩
      · dsimp only; intro hc; cases hc
      · dsimp only
        split
        · rename_i hlt hprog
          have hgrow : st.execOrder.length < st1.execOrder.length := by
            subst hprog
            exact doPass_cont_length env runId env.workflow.steps st st1 hP
          apply ih
          dsimp only
          omega
        · intro hc; cases hc
    · intro hc; cases hc

/-- Every name in a dependency-closed sequence is reachable. -/
theorem depSeq_mem_reachable (steps : List WorkflowStep) (order : List String)
    (h : DepSeq steps order) : ∀ n ∈ order, Reachable steps n := by
  induction h with
  | nil => simp
  | snoc order s hs hdeps _ ih =>
    intro n hn
    rcases List.mem_append.mp hn with hn | hn
    · exact ih n hn
    · simp only [List.mem_singleton] at hn
      subst hn
      exact Reachable.mk s hs fun d hd => ih d (hdeps d hd)

/-- C2.  When a full scan pass finds no newly-runnable step while
unexecuted steps remain, `ExecuteWorkflow` stalls: it returns the stall
error with a nil result (unlike a step-level failure, which returns a
result and the step's error), writes no run-status update to the store
(every store write of the execution is status-update-free), so the run
row created at start still has status `running`; and no step whose
dependency chain is cyclic or dangling was executed. -/
theorem stallLeavesRunRunning (env : Env)
    (h : (ExecuteWorkflow env).stalled = true) :
    (ExecuteWorkflow env).error = some stallMsg ∧
    (ExecuteWorkflow env).result = none ∧
    (∀ op ∈ (ExecuteWorkflow env).storeLog, op.isUpdate = false) ∧
    (∃ run, (ExecuteWorkflow env).kg.runs = env.kg0.runs ++ [run] ∧
      run.status = "running") ∧
    ∀ s ∈ env.workflow.steps, ¬ Reachable env.workflow.steps s.name →
      s.name ∉ (ExecuteWorkflow env).execOrder := by
  unfold ExecuteWorkflow at h ⊢
  split at h
  · cases h
  · rename_i heqC
    dsimp only at h ⊢
    split at h
    · cases h
    · cases h
    · rename_i st heqL
      have hF := execLoop_frame env (mkRunId env)
        (env.workflow.steps.length + 1) (mkSt0 env)
      rw [heqL] at hF
      dsimp only [ExecOutcome.st] at hF
      obtain ⟨⟨dp, hdp1, hdp2⟩, hruns, _, ⟨ds, hds, hdsc⟩, _⟩ := hF
      simp only [mkSt0] at hruns hds
      have hD := execLoop_depSeq env (mkRunId env)
        (env.workflow.steps.length + 1) (mkSt0 env)
        (by simp only [mkSt0]; exact DepSeq.nil)
      rw [heqL] at hD
      dsimp only [ExecOutcome.st] at hD
      refine ⟨rfl, rfl, ?_, ?_, ?_⟩
      · intro op hop
        rw [hds] at hop
        rcases List.mem_append.mp hop with hop | hop
        · simp only [List.mem_singleton] at hop
          subst hop
          rfl
        · exact hdsc op hop
      · exact ⟨mkRun0 env, hruns, rfl⟩
      · intro s hs hnr hmem
        exact hnr (depSeq_mem_reachable env.workflow.steps st.execOrder hD s.name hmem)
    · cases h

/-- Witness for C2 at the cyclic two-step workflow. -/
theorem stallLeavesRunRunning_witness :
    (ExecuteWorkflow envCycle).error = some stallMsg ∧
    (ExecuteWorkflow envCycle).result = none ∧
    (∀ op ∈ (ExecuteWorkflow envCycle).storeLog, op.isUpdate = false) ∧
    (∃ run, (ExecuteWorkflow envCycle).kg.runs = envCycle.kg0.runs ++ [run] ∧
      run.status = "running") ∧
    ∀ s ∈ envCycle.workflow.steps, ¬ Reachable envCycle.workflow.steps s.name →
      s.name ∉ (ExecuteWorkflow envCycle).execOrder :=
  stallLeavesRunRunning envCycle rfl

/-- C4.  Step execution is at-most-once per run: the executed sequence of
any execution contains no duplicate step name, and the per-step result
map of a returned result has pairwise distinct keys (a step once marked
executed is skipped by every later scan). -/
theorem atMostOncePerRun (env : Env) :
    (ExecuteWorkflow env).execOrder.Nodup ∧
    ∀ res, (ExecuteWorkflow env).result = some res → (res.steps.map Prod.fst).Nodup := by
  unfold ExecuteWorkflow
  split
  · dsimp only
    exact ⟨List.nodup_nil, fun res h => by cases h⟩
  · dsimp only
    have hN := execLoop_nodup env (mkRunId env) (env.workflow.steps.length + 1)
      (mkSt0 env) (by simp [mkSt0])
    have hF := execLoop_frame env (mkRunId env) (env.workflow.steps.length + 1)
      (mkSt0 env)
    obtain ⟨⟨dp, hdp1, hdp2⟩, _⟩ := hF
    split
    · rename_i st heqL
      rw [heqL] at hN hdp1 hdp2
      dsimp only [ExecOutcome.st] at hN hdp1 hdp2
      simp only [mkSt0, List.nil_append] at hdp1 hdp2
      refine ⟨hN, ?_⟩
      intro res hres
      injection hres with hres
      subst hres
      show (st.stepResults.map Prod.fst).Nodup
      rw [hdp1, ← hdp2]
      exact hN
    · rename_i sr err st heqL
      rw [heqL] at hN hdp1 hdp2
      dsimp only [ExecOutcome.st] at hN hdp1 hdp2
      simp only [mkSt0, List.nil_append] at hdp1 hdp2
      refine ⟨hN, ?_⟩
      intro res hres
      injection hres with hres
      subst hres
      show (st.stepResults.map Prod.fst).Nodup
      rw [hdp1, ← hdp2]
      exact hN
    · rename_i st heqL
      rw [heqL] at hN
      dsimp only [ExecOutcome.st] at hN
      exact ⟨hN, fun res h => by cases h⟩
    · rename_i st heqL
      rw [heqL] at hN
      dsimp only [ExecOutcome.st] at hN
      exact ⟨hN, fun res h => by cases h⟩

/-- Witness for C4 at the chain fixture, whose run completes. -/
theorem atMostOncePerRun_witness :
    (ExecuteWorkflow envChain).execOrder.Nodup ∧
    ∃ res, (ExecuteWorkflow envChain).result = some res ∧
      (res.steps.map Prod.fst).Nodup := by
  refine ⟨(atMostOncePerRun envChain).1, ?_⟩
  rcases hres : (ExecuteWorkflow envChain).result with _ | res
  · exact absurd hres (by decide)
  · exact ⟨res, rfl, (atMostOncePerRun envChain).2 res hres⟩

/-- C10.  Every provider request issued by the executor carries the
constant parameters temperature 0.7 and 1000 max tokens, with no top-p,
no stop sequences and no metadata, for every step of every workflow (no
per-step or per-agent override exists); and the model named in the wire
request of the Ollama client is the client's own configured model — the
executor's `GenerateRequest` has no model field at all, so the agent's
declared model name is never passed. -/
theorem generateRequestConstants (env : Env) :
    (∀ req ∈ (ExecuteWorkflow env).reqLog,
      req.temperature = (7 : Rat) / 10 ∧ req.maxTokens = 1000 ∧ req.topP = 0 ∧
        req.stop = [] ∧ req.metadata = []) ∧
    ∀ (c : OllamaClient) (req : GenerateRequest),
      (mkOllamaGenerateRequest c req).model = c.model ∧
      (mkOllamaGenerateRequest c req).optionsTemperature = req.temperature := by
  refine ⟨?_, fun c req => ⟨rfl, rfl⟩⟩
  unfold ExecuteWorkflow
  split
  · dsimp only
    intro req h
    cases h
  · dsimp only
    intro req hreq
    have hF := execLoop_frame env (mkRunId env) (env.workflow.steps.length + 1)
      (mkSt0 env)
    obtain ⟨_, _, ⟨dr, hdr, hdrc⟩, _⟩ := hF
    revert hreq
    split <;> intro hreq
    all_goals rename_i heqL
    all_goals rw [heqL] at hdr
    all_goals dsimp only [ExecOutcome.st] at hdr
    all_goals simp only [mkSt0, List.nil_append] at hdr
    all_goals rw [hdr] at hreq
    all_goals exact hdrc req hreq

/-- Witness for C10: the first request of the chain fixture run carries
exactly the constant parameters, and the Ollama wire request for it
names the client's configured model. -/
theorem generateRequestConstants_witness :
    req1 ∈ (ExecuteWorkflow envChain).reqLog ∧
    (req1.temperature = (7 : Rat) / 10 ∧ req1.maxTokens = 1000 ∧ req1.topP = 0 ∧
      req1.stop = [] ∧ req1.metadata = []) ∧
    (mkOllamaGenerateRequest ollamaFixture req1).model = "llama2" :=
  ⟨by refine List.mem_of_mem_head? ?_; rfl,
   (generateRequestConstants envChain).1 req1 (by refine List.mem_of_mem_head? ?_; rfl),
   ((generateRequestConstants envChain).2 ollamaFixture req1).1⟩

/-- Injectivity of appending a single element. -/
theorem append_singleton_inj {α : Type} {l1 l2 : List α} {a b : α}
    (h : l1 ++ [a] = l2 ++ [b]) : l1 = l2 ∧ a = b := by
  have h2 := congrArg List.reverse h
  simp only [List.reverse_append, List.reverse_singleton, List.singleton_append] at h2
  obtain ⟨hab, hl⟩ := List.cons.inj h2
  exact ⟨List.reverse_injective hl, hab⟩

/-- Positional form of dependency-closedness: wherever a name sits in a
dependency-closed sequence, some workflow step with that name has all of
its dependencies strictly earlier. -/
theorem depSeq_prefix_deps (steps : List WorkflowStep) (order : List String)
    (h : DepSeq steps order) :
    ∀ l1 n l2, order = l1 ++ n :: l2 →
      ∃ s, s ∈ steps ∧ s.name = n ∧ ∀ d ∈ s.dependsOn, d ∈ l1 := by
  induction h with
  | nil =>
    intro l1 n l2 h
    exact absurd h (by simp)
  | snoc order s hs hdeps _ ih =>
    intro l1 n l2 heq
    rcases l2.eq_nil_or_concat with rfl | ⟨l2x, x, rfl⟩
    · obtain ⟨h1, h2⟩ := append_singleton_inj heq
      subst h1
      exact ⟨s, hs, h2, hdeps⟩
    · rw [List.concat_eq_append, ← List.cons_append, ← List.append_assoc] at heq
      obtain ⟨h1, _⟩ := append_singleton_inj heq
      exact ih l1 n l2x h1

/-- A step satisfying `StepOK` executes with a nil error. -/
theorem executeStep_ok (env : Env) (runId : String) (step : WorkflowStep)
    (st : LoopSt) (h : StepOK env step) :
    (executeStep env runId step st).2.1 = none := by
  obtain ⟨a, ha, p, hp, hg⟩ := h
  obtain ⟨resp, hresp⟩ := hg
    { prompt := substituteVariables step.input
        (permuteByIdx (env.varOrderAt (st.tick + 1)) env.vars)
        (permuteByIdx (env.resOrderAt (st.tick + 1)) st.stepResults),
      systemPrompt := a.systemPrompt, temperature := (7 : Rat) / 10,
      maxTokens := 1000, topP := 0, stop := [], metadata := [] }
  rcases hA : env.createArtifactErr with _ | m <;>
    simp [executeStep, ha, hp, hresp, hA]

/-- Under `StepOK` for every scanned step, a pass never aborts. -/
theorem doPass_ok (env : Env) (runId : String) :
    ∀ (l : List WorkflowStep) (st : LoopSt) (progress : Bool),
      (∀ x ∈ l, StepOK env x) →
      ∃ st1 p1, doPass env runId l st progress = .cont st1 p1 := by
  intro l
  induction l with
  | nil => intro st progress _; exact ⟨st, progress, rfl⟩
  | cons step rest ih =>
    intro st progress hok
    simp only [doPass]
    split
    · exact ih st progress fun x hx => hok x (List.mem_cons_of_mem _ hx)
    · split
      · rcases hE : executeStep env runId step st with ⟨sr, e, st1⟩
        have hnone := executeStep_ok env runId step st (hok step (List.mem_cons_self _ _))
        rw [hE] at hnone
        dsimp only at hnone
        subst hnone
        exact ih _ true fun x hx => hok x (List.mem_cons_of_mem _ hx)
      · exact ih st progress fun x hx => hok x (List.mem_cons_of_mem _ hx)

/-- A pass that returns with the progress flag still down executed
nothing: the flag was already down and the executed set is unchanged. -/
theorem doPass_cont_false (env : Env) (runId : String) :
    ∀ (l : List WorkflowStep) (st : LoopSt) (progress : Bool) (st1 : LoopSt),
      doPass env runId l st progress = .cont st1 false →
      progress = false ∧ st1.execOrder = st.execOrder := by
  intro l
  induction l with
  | nil =>
    intro st progress st1 h
    simp only [doPass] at h
    injection h with h1 h2
    subst h1
    exact ⟨h2, rfl⟩
  | cons step rest ih =>
    intro st progress st1 h
    simp only [doPass] at h
    split at h
    · exact ih st progress st1 h
    · split at h
      · rcases hE : executeStep env runId step st with ⟨sr, e, st2⟩
        rw [hE] at h
        cases e with
        | some err => dsimp only at h; cases h
        | none =>
          dsimp only at h
          obtain ⟨hc, _⟩ := ih _ true st1 h
          cases hc
      · exact ih st progress st1 h

/-- Every step of the scanned list that was runnable at the start of the
pass has been executed by the end of the pass. -/
theorem doPass_executes (env : Env) (runId : String) :
    ∀ (l : List WorkflowStep) (st : LoopSt) (progress : Bool) (st1 : LoopSt) (p1 : Bool),
      doPass env runId l st progress = .cont st1 p1 →
      ∀ x ∈ l, areDependenciesSatisfied x.dependsOn st.execOrder = true →
        x.name ∈ st1.execOrder := by
  intro l
  induction l with
  | nil =>
    intro st progress st1 p1 h x hx
    cases hx
  | cons step rest ih =>
    intro st progress st1 p1 h x hx hdeps
    simp only [doPass] at h
    split at h
    · rcases List.mem_cons.mp hx with rfl | hx2
      · rename_i hcon
        have hmem : x.name ∈ st.execOrder := by simpa using hcon
        have hfr := doPass_frame env runId rest st progress
        rw [h] at hfr
        dsimp only [PassOut.st] at hfr
        obtain ⟨⟨dp, _, h2, _⟩, _⟩ := hfr
        rw [h2]
        exact List.mem_append_left _ hmem
      · exact ih st progress st1 p1 h x hx2 hdeps
    · split at h
      · rcases hE : executeStep env runId step st with ⟨sr, e, st2⟩
        rw [hE] at h
        cases e with
        | some err => dsimp only at h; cases h
        | none =>
          dsimp only at h
          have hfr2 := executeStep_frame env runId step st
          rw [hE] at hfr2
          dsimp only at hfr2
          rcases List.mem_cons.mp hx with rfl | hx2
          · have hfr := doPass_frame env runId rest
              { st2 with execOrder := st2.execOrder ++ [x.name],
                         stepResults := st2.stepResults ++ [(x.name, sr)] } true
            rw [h] at hfr
            dsimp only [PassOut.st] at hfr
            obtain ⟨⟨dp, _, h2, _⟩, _⟩ := hfr
            rw [h2]
            exact List.mem_append_left _
              (List.mem_append_right _ (List.mem_singleton_self _))
          · refine ih _ true st1 p1 h x hx2 ?_
            rw [hfr2.1]
            exact areDependenciesSatisfied_mono _ _ _ hdeps
      · rcases List.mem_cons.mp hx with rfl | hx2
        · rename_i hdeps2
          exact absurd hdeps hdeps2
        · exact ih st progress st1 p1 h x hx2 hdeps

/-- When a reachable name is still unexecuted, some step of the workflow
is unexecuted yet has all of its dependencies already executed. -/
theorem reachable_runnable (steps : List WorkflowStep) (executed : List String) :
    ∀ n, Reachable steps n → n ∉ executed →
      ∃ t, t ∈ steps ∧ t.name ∉ executed ∧
        areDependenciesSatisfied t.dependsOn executed = true := by
  intro n hr
  induction hr with
  | mk s hs hdeps ih =>
    intro hnot
    by_cases hsat : areDependenciesSatisfied s.dependsOn executed = true
    · exact ⟨s, hs, hnot, hsat⟩
    · have : ∃ d ∈ s.dependsOn, d ∉ executed := by
        simp only [areDependenciesSatisfied, List.all_eq_true, not_forall] at hsat
        obtain ⟨d, hd, hdc⟩ := hsat
        refine ⟨d, hd, ?_⟩
        simpa using hdc
      obtain ⟨d, hd, hdnot⟩ := this
      exact ih d hd hdnot

/-- Liveness of the scheduling loop: with distinct step names, every step
reachable and every step able to execute, sufficient fuel drives the
loop to completion with every step executed. -/
theorem execLoop_completes (env : Env) (runId : String)
    (hok : ∀ s ∈ env.workflow.steps, StepOK env s)
    (hreach : ∀ s ∈ env.workflow.steps, Reachable env.workflow.steps s.name)
    (hnames : (env.workflow.steps.map WorkflowStep.name).Nodup) :
    ∀ (fuel : Nat) (st : LoopSt),
      env.workflow.steps.length - st.execOrder.length < fuel →
      st.execOrder.Nodup →
      (∀ n ∈ st.execOrder, n ∈ env.workflow.steps.map WorkflowStep.name) →
      ∃ stf, execLoop env runId fuel st = .completed stf ∧
        ∀ s ∈ env.workflow.steps, s.name ∈ stf.execOrder := by
  intro fuel
  induction fuel with
  | zero => intro st h; omega
  | succ fuel ih =>
    intro st hfuel hnodup hsub
    simp only [execLoop]
    split
    · rename_i hlt
      have hexists : ∃ s, s ∈ env.workflow.steps ∧ s.name ∉ st.execOrder := by
        by_contra hall
        push_neg at hall
        have hsub2 : env.workflow.steps.map WorkflowStep.name ⊆ st.execOrder := by
          intro n hn
          obtain ⟨s, hs, rfl⟩ := List.mem_map.mp hn
          exact hall s hs
        have := (List.subperm_of_subset hnames hsub2).length_le
        simp only [List.length_map] at this
        omega
      obtain ⟨s0, hs0, hs0not⟩ := hexists
      obtain ⟨t, ht, htnot, htsat⟩ :=
        reachable_runnable env.workflow.steps st.execOrder s0.name
          (hreach s0 hs0) hs0not
      obtain ⟨st1, p1, hP⟩ := doPass_ok env runId env.workflow.steps st false hok
      rw [hP]
      dsimp only
      have htmem : t.name ∈ st1.execOrder :=
        doPass_executes env runId env.workflow.steps st false st1 p1 hP t ht htsat
      have hp1 : p1 = true := by
        cases p1
        · obtain ⟨_, hord⟩ := doPass_cont_false env runId env.workflow.steps st false st1 hP
          rw [hord] at htmem
          exact absurd htmem htnot
        · rfl
      subst hp1
      simp only [if_true]
      have hgrow : st.execOrder.length < st1.execOrder.length :=
        doPass_cont_length env runId env.workflow.steps st st1 hP
      have hfr := doPass_frame env runId env.workflow.steps st false
      rw [hP] at hfr
      dsimp only [PassOut.st] at hfr
      obtain ⟨⟨dp, _, hord, hsubl⟩, _⟩ := hfr
      have hnodup1 : st1.execOrder.Nodup := by
        have := doPass_nodup env runId env.workflow.steps st false hnodup
        rw [hP] at this
        exact this
      have hsub1 : ∀ n ∈ st1.execOrder, n ∈ env.workflow.steps.map WorkflowStep.name := by
        intro n hn
        rw [hord] at hn
        rcases List.mem_append.mp hn with hn | hn
        · exact hsub n hn
        · exact hsubl.subset hn
      exact ih { st1 with passLog := st1.passLog ++
          [st1.execOrder.drop st.execOrder.length] }
        (by dsimp only; omega) (by dsimp only; exact hnodup1)
        (by dsimp only; exact hsub1)
    · rename_i hge
      refine ⟨st, rfl, ?_⟩
      have hlen : env.workflow.steps.length ≤ st.execOrder.length := by omega
      have hperm : List.Perm st.execOrder (env.workflow.steps.map WorkflowStep.name) := by
        refine (List.subperm_of_subset hnodup fun n hn => hsub n hn).perm_of_length_le ?_
        simpa using hlen
      intro s hs
      exact hperm.symm.subset (List.mem_map_of_mem _ hs)

/-- The executed sequence of any execution is dependency-closed. -/
theorem execOrder_depSeq (env : Env) :
    DepSeq env.workflow.steps (ExecuteWorkflow env).execOrder := by
  unfold ExecuteWorkflow
  split
  · dsimp only
    exact DepSeq.nil
  · dsimp only
    have hD := execLoop_depSeq env (mkRunId env) (env.workflow.steps.length + 1)
      (mkSt0 env) (by simp only [mkSt0]; exact DepSeq.nil)
    split
    all_goals rename_i heqL
    all_goals rw [heqL] at hD
    all_goals exact hD

/-- Each recorded pass executed its steps in declaration order. -/
theorem passLog_ordered (env : Env) :
    ∀ p ∈ (ExecuteWorkflow env).passLog,
      p.Sublist (env.workflow.steps.map WorkflowStep.name) := by
  unfold ExecuteWorkflow
  split
  · dsimp only
    intro p hp
    cases hp
  · dsimp only
    have hF := execLoop_frame env (mkRunId env) (env.workflow.steps.length + 1)
      (mkSt0 env)
    obtain ⟨_, _, _, _, hpass⟩ := hF
    intro p hp
    revert hp
    split <;> intro hp
    all_goals rename_i heqL
    all_goals rw [heqL] at hpass
    all_goals rcases hpass p hp with hmem | hsub
    all_goals first
      | (simp only [mkSt0] at hmem; cases hmem)
      | exact hsub

/-- A valid acyclic workflow whose steps can all execute runs to
completion with every step executed. -/
theorem executeWorkflow_completes (env : Env)
    (hnames : (env.workflow.steps.map WorkflowStep.name).Nodup)
    (hrun : env.createRunErr = none)
    (hreach : ∀ s ∈ env.workflow.steps, Reachable env.workflow.steps s.name)
    (hok : ∀ s ∈ env.workflow.steps, StepOK env s) :
    (ExecuteWorkflow env).error = none ∧
    (ExecuteWorkflow env).result.map (fun r => r.status) = some "completed" ∧
    ∀ s ∈ env.workflow.steps, s.name ∈ (ExecuteWorkflow env).execOrder := by
  obtain ⟨stf, heq, hall⟩ := execLoop_completes env (mkRunId env) hok hreach hnames
    (env.workflow.steps.length + 1) (mkSt0 env)
    (by simp only [mkSt0, List.length_nil]; omega)
    (by simp [mkSt0]) (by simp [mkSt0])
  unfold ExecuteWorkflow
  split
  · rename_i heqC
    rw [hrun] at heqC
    cases heqC
  · dsimp only
    rw [heq]
    exact ⟨rfl, rfl, hall⟩

/-- C3.  Dependency correctness.  First, for every workflow with distinct
step names, a step never executes before every step named in its
`dependsOn` has completed: wherever its name sits in the executed
sequence, all its dependencies occur strictly earlier (empty `dependsOn`
is vacuously satisfied, so such steps are immediately runnable).
Second, for every valid acyclic workflow (all names reachable through
declared dependencies) whose steps can all execute, the run completes
and every step eventually executes.  Third, within each scan pass the
executed steps follow the workflow's declared step order. -/
theorem dependencyCorrectness :
    (∀ env : Env, (env.workflow.steps.map WorkflowStep.name).Nodup →
      ∀ l1 n l2, (ExecuteWorkflow env).execOrder = l1 ++ n :: l2 →
        ∀ s ∈ env.workflow.steps, s.name = n → ∀ d ∈ s.dependsOn, d ∈ l1) ∧
    (∀ env : Env, (env.workflow.steps.map WorkflowStep.name).Nodup →
      env.createRunErr = none →
      (∀ s ∈ env.workflow.steps, Reachable env.workflow.steps s.name) →
      (∀ s ∈ env.workflow.steps, StepOK env s) →
      (ExecuteWorkflow env).error = none ∧
      (ExecuteWorkflow env).result.map (fun r => r.status) = some "completed" ∧
      ∀ s ∈ env.workflow.steps, s.name ∈ (ExecuteWorkflow env).execOrder) ∧
    ∀ env : Env, ∀ p ∈ (ExecuteWorkflow env).passLog,
      p.Sublist (env.workflow.steps.map WorkflowStep.name) := by
  refine ⟨?_, ?_, ?_⟩
  · intro env hnames l1 n l2 hsplit s hs hname d hd
    obtain ⟨s2, hs2, hname2, hdeps2⟩ :=
      depSeq_prefix_deps env.workflow.steps _ (execOrder_depSeq env) l1 n l2 hsplit
    have heq : s = s2 :=
      List.inj_on_of_nodup_map hnames hs hs2 (by rw [hname, hname2])
    subst heq
    exact hdeps2 d hd
  · intro env hnames hrun hreach hok
    exact executeWorkflow_completes env hnames hrun hreach hok
  · intro env
    exact passLog_ordered env

/-- Witness for C3 at the chain fixture, discharging validity and
executability of both steps. -/
theorem dependencyCorrectness_witness :
    (ExecuteWorkflow envChain).error = none ∧
    (ExecuteWorkflow envChain).result.map (fun r => r.status) = some "completed" ∧
    ∀ s ∈ envChain.workflow.steps, s.name ∈ (ExecuteWorkflow envChain).execOrder := by
  have h1 : Reachable envChain.workflow.steps "s1" :=
    Reachable.mk stepS1 (List.mem_cons_self _ _)
      (by intro d hd; simp [stepS1] at hd)
  have h2 : Reachable envChain.workflow.steps "s2" :=
    Reachable.mk stepS2 (List.mem_cons_of_mem _ (List.mem_cons_self _ _))
      (by intro d hd
          simp only [stepS2, List.mem_singleton] at hd
          subst hd
          exact h1)
  refine dependencyCorrectness.2.1 envChain (by decide) rfl ?_ ?_
  · intro s hs
    rcases List.mem_cons.mp hs with rfl | hs2
    · exact h1
    · rcases List.mem_cons.mp hs2 with rfl | hs3
      · exact h2
      · cases hs3
  · intro s hs
    rcases List.mem_cons.mp hs with rfl | hs2
    · exact ⟨agentA1, rfl, stubProvider, rfl, fun req => ⟨stubResp, rfl⟩⟩
    · rcases List.mem_cons.mp hs2 with rfl | hs3
      · exact ⟨agentA1, rfl, stubProvider, rfl, fun req => ⟨stubResp, rfl⟩⟩
      · cases hs3

/-- Witness for C7 (amended) at the by-name fixture. -/
theorem agentResolvedById_witness :
    (ExecuteWorkflow envAgentByName).error.isSome = true ∧
    (ExecuteWorkflow envAgentByName).result.map (fun r => r.status) = some "failed" ∧
    ∀ r ∈ (ExecuteWorkflow envAgentByName).kg.runs,
      r ∉ envAgentByName.kg0.runs → r.status = "failed" :=
  agentResolvedById envAgentByName
    { name := "s1", agent := "planner", input := "go", dependsOn := [],
      successWhen := "" } rfl rfl rfl rfl

/-- The step-output substitution pass only reads the key and the output
text of collected step results, both preserved by scrubbing. -/
theorem substituteOutputs_sim :
    ∀ (r1 r2 : List (String × StepResult)) (acc : String),
      r1.map (fun kv => (kv.1, kv.2.scrub)) = r2.map (fun kv => (kv.1, kv.2.scrub)) →
      r1.foldl (fun acc kv =>
        goReplaceAll acc ("\x7b\x7b." ++ kv.1 ++ ".output\x7d\x7d") kv.2.output) acc =
      r2.foldl (fun acc kv =>
        goReplaceAll acc ("\x7b\x7b." ++ kv.1 ++ ".output\x7d\x7d") kv.2.output) acc := by
  intro r1
  induction r1 with
  | nil =>
    intro r2 acc h
    cases r2 with
    | nil => rfl
    | cons kv2 t2 => cases h
  | cons kv1 t1 ih =>
    intro r2 acc h
    cases r2 with
    | nil => cases h
    | cons kv2 t2 =>
      simp only [List.map_cons, List.cons.injEq] at h
      obtain ⟨hhd, htl⟩ := h
      simp only [Prod.mk.injEq] at hhd
      obtain ⟨hk, hs⟩ := hhd
      have hout : kv1.2.output = kv2.2.output := congrArg StepResultContent.output hs
      simp only [List.foldl_cons]
      rw [hk, hout]
      exact ih t2 _ htl

/-- `permuteByIdx` commutes with `List.map`. -/
theorem permuteByIdx_map {α β : Type} (f : α → β) :
    ∀ (idxs : List Nat) (l : List α),
      permuteByIdx idxs (l.map f) = (permuteByIdx idxs l).map f := by
  intro idxs
  induction idxs with
  | nil => intro l; rfl
  | cons i t ih =>
    intro l
    simp only [permuteByIdx, List.get?_map]
    cases h : l.get? i with
    | none =>
      simp only [Option.map_none]
      exact ih l
    | some x =>
      simp only [List.map_cons]
      rw [ih l]
      rfl

/-- Variable substitution is invariant under scrubbing of the collected
step results. -/
theorem substituteVariables_sim (input : String) (vars : List (String × String))
    (r1 r2 : List (String × StepResult))
    (h : r1.map (fun kv => (kv.1, kv.2.scrub)) = r2.map (fun kv => (kv.1, kv.2.scrub))) :
    substituteVariables input vars r1 = substituteVariables input vars r2 := by
  unfold substituteVariables
  exact substituteOutputs_sim r1 r2 _ h

/-- One step behaves identically under two clocks: same error, same step
result up to timestamps, and equivalent states. -/
theorem executeStep_sim (env : Env) (t1 t2 : Nat → Int) (rid1 rid2 : String)
    (step : WorkflowStep) (a b : LoopSt) (hsim : LoopSt.Sim a b) :
    (executeStep (env.withTime t1) rid1 step a).1.scrub =
      (executeStep (env.withTime t2) rid2 step b).1.scrub ∧
    (executeStep (env.withTime t1) rid1 step a).2.1 =
      (executeStep (env.withTime t2) rid2 step b).2.1 ∧
    LoopSt.Sim (executeStep (env.withTime t1) rid1 step a).2.2
      (executeStep (env.withTime t2) rid2 step b).2.2 := by
  obtain ⟨hord, hres, hruns, harts, htick, hreq, hpass⟩ := hsim
  have hres2 : (permuteByIdx (env.resOrderAt (b.tick + 1)) a.stepResults).map
        (fun kv => (kv.1, kv.2.scrub)) =
      (permuteByIdx (env.resOrderAt (b.tick + 1)) b.stepResults).map
        (fun kv => (kv.1, kv.2.scrub)) := by
    rw [← permuteByIdx_map, ← permuteByIdx_map, hres]
  have hinput : substituteVariables step.input
        (permuteByIdx (env.varOrderAt (a.tick + 1)) env.vars)
        (permuteByIdx (env.resOrderAt (a.tick + 1)) a.stepResults) =
      substituteVariables step.input
        (permuteByIdx (env.varOrderAt (b.tick + 1)) env.vars)
        (permuteByIdx (env.resOrderAt (b.tick + 1)) b.stepResults) := by
    rw [htick]
    exact substituteVariables_sim _ _ _ _ hres2
  unfold executeStep
  dsimp only [Env.withTime]
  rcases hA : lookupAgentById env.agents step.agent with _ | agent
  · dsimp only
    refine ⟨rfl, rfl, ?_⟩
    exact ⟨hord, hres, hruns, harts, by rw [htick], hreq, hpass⟩
  · dsimp only
    rcases hP : lookupProvider env.providers agent.modelProvider with _ | provider
    · dsimp only
      refine ⟨rfl, rfl, ?_⟩
      exact ⟨hord, hres, hruns, harts, by rw [htick], hreq, hpass⟩
    · dsimp only
      rw [hinput]
      rcases hG : provider.generate
          { prompt := substituteVariables step.input
              (permuteByIdx (env.varOrderAt (b.tick + 1)) env.vars)
              (permuteByIdx (env.resOrderAt (b.tick + 1)) b.stepResults),
            systemPrompt := agent.systemPrompt, temperature := (7 : Rat) / 10,
            maxTokens := 1000, topP := 0, stop := [], metadata := [] } with e | resp
      · dsimp only
        refine ⟨rfl, rfl, ?_⟩
        refine ⟨hord, hres, hruns, harts, by rw [htick], by rw [hreq], hpass⟩
      · dsimp only
        rcases hC : env.createArtifactErr with _ | m
        · dsimp only
          refine ⟨rfl, rfl, ?_⟩
          refine ⟨hord, hres, hruns, ?_, by rw [htick], by rw [hreq], hpass⟩
          simp only [List.map_append]
          rw [harts]
          simp [Artifact.scrub]
        · dsimp only
          refine ⟨rfl, rfl, ?_⟩
          exact ⟨hord, hres, hruns, harts, by rw [htick], by rw [hreq], hpass⟩

/-- One scan pass behaves identically under two clocks. -/
theorem doPass_sim (env : Env) (t1 t2 : Nat → Int) (rid1 rid2 : String) :
    ∀ (l : List WorkflowStep) (a b : LoopSt) (progress : Bool), LoopSt.Sim a b →
      PassOut.Sim (doPass (env.withTime t1) rid1 l a progress)
        (doPass (env.withTime t2) rid2 l b progress) := by
  intro l
  induction l with
  | nil =>
    intro a b progress hsim
    exact ⟨rfl, hsim⟩
  | cons step rest ih =>
    intro a b progress hsim
    have hord := hsim.1
    simp only [doPass]
    rw [← hord]
    by_cases hcon : a.execOrder.contains step.name = true
    · simp only [if_pos hcon]
      exact ih a b progress hsim
    · simp only [if_neg hcon]
      by_cases hdep : areDependenciesSatisfied step.dependsOn a.execOrder = true
      · simp only [if_pos hdep]
        have hE := executeStep_sim env t1 t2 rid1 rid2 step a b hsim
        rcases h1 : executeStep (env.withTime t1) rid1 step a with ⟨sr1, e1, a1⟩
        rcases h2 : executeStep (env.withTime t2) rid2 step b with ⟨sr2, e2, b1⟩
        rw [h1, h2] at hE
        dsimp only at hE
        obtain ⟨hsr, he, hsim1⟩ := hE
        subst he
        cases e1 with
        | some err =>
          dsimp only
          exact ⟨hsr, rfl, hsim1⟩
        | none =>
          dsimp only
          obtain ⟨o1, r1e, ru, ar, ti, rq, pl⟩ := hsim1
          refine ih _ _ true ⟨?_, ?_, ru, ar, ti, rq, pl⟩
          · dsimp only
            rw [o1]
          · dsimp only
            simp only [List.map_append, List.map_cons, List.map_nil, r1e, hsr]
      · simp only [if_neg hdep]
        exact ih a b progress hsim

/-- The scheduling loop behaves identically under two clocks. -/
theorem execLoop_sim (env : Env) (t1 t2 : Nat → Int) (rid1 rid2 : String) :
    ∀ (fuel : Nat) (a b : LoopSt), LoopSt.Sim a b →
      ExecOutcome.Sim (execLoop (env.withTime t1) rid1 fuel a)
        (execLoop (env.withTime t2) rid2 fuel b) := by
  intro fuel
  induction fuel with
  | zero =>
    intro a b hsim
    exact hsim
  | succ fuel ih =>
    intro a b hsim
    have hord := hsim.1
    simp only [execLoop]
    dsimp only [Env.withTime]
    rw [← hord]
    by_cases hlt : a.execOrder.length < env.workflow.steps.length
    · simp only [if_pos hlt]
      have hP := doPass_sim env t1 t2 rid1 rid2 env.workflow.steps a b false hsim
      rcases h1 : doPass (env.withTime t1) rid1 env.workflow.steps a false with
        ⟨sr1, e1, a1⟩ | ⟨a1, p1⟩ <;>
        rcases h2 : doPass (env.withTime t2) rid2 env.workflow.steps b false with
          ⟨sr2, e2, b1⟩ | ⟨b1, p2⟩ <;>
        rw [h1, h2] at hP <;>
        dsimp only [Env.withTime] at h1 h2 <;>
        rw [h1, h2] <;>
        dsimp only
      · exact hP
      · exact hP.elim
      · exact hP.elim
      · obtain ⟨hpeq, hsim1⟩ := hP
        subst hpeq
        by_cases hp : p1 = true
        · subst hp
          simp only [if_true]
          obtain ⟨o1, r1e, ru, ar, ti, rq, pl⟩ := hsim1
          refine ih _ _ ⟨o1, r1e, ru, ar, ti, rq, ?_⟩
          dsimp only
          rw [pl, o1]
        · simp only [if_neg hp]
          exact hsim1
    · simp only [if_neg hlt]
      exact hsim

/-- `UpdateRunStatus` on a runs table whose only row with the target id is
the freshly appended one updates exactly that row. -/
theorem updateRuns_append (runs : List RunRecord) (run : RunRecord)
    (rid s o e : String) (hid : run.id = rid) (hfresh : ∀ r ∈ runs, r.id ≠ rid) :
    (runs ++ [run]).map (fun r =>
      if r.id = rid then { r with status := s, outputData := o, errorMessage := e }
      else r) =
    runs ++ [{ run with status := s, outputData := o, errorMessage := e }] := by
  rw [List.map_append]
  congr 1
  · calc runs.map (fun r =>
          if r.id = rid then { r with status := s, outputData := o, errorMessage := e }
          else r)
        = runs.map id := List.map_congr_left fun r hr => if_neg (hfresh r hr)
      _ = runs := List.map_id runs
  · simp [hid]

/-- The clock replacement changes no other field. -/
theorem withTime_workflow (env : Env) (t : Nat → Int) :
    (env.withTime t).workflow = env.workflow := rfl

/-- The clock replacement keeps the variables. -/
theorem withTime_vars (env : Env) (t : Nat → Int) :
    (env.withTime t).vars = env.vars := rfl

/-- The clock replacement keeps the store content. -/
theorem withTime_kg0 (env : Env) (t : Nat → Int) :
    (env.withTime t).kg0 = env.kg0 := rfl

/-- The clock replacement keeps the run-creation fault knob. -/
theorem withTime_createRunErr (env : Env) (t : Nat → Int) :
    (env.withTime t).createRunErr = env.createRunErr := rfl

/-- C5 (counterexample to the claim as stated).  `substituteVariables`
iterates two Go maps whose iteration order is randomized per invocation;
the model receives that order from the environment (`varOrderAt`,
`resOrderAt`).  The two environments below describe two invocations of
the program on identical inputs: same workflow, variables, agents,
provider and store, differing only in the iteration order drawn for the
variables map — both orders are permutations of the entry positions, so
both are admissible runs.  Because variable `a` expands to the
placeholder of `b`, the replacements interact: one order renders `X`,
the other renders the literal placeholder text.  The rendered prompts
differ, and with the prompt-echoing provider the step outputs and the
stored artifact contents differ too — content differences that no
scrubbing of identifiers and timestamps erases.  So two runs on
identical inputs are *not* guaranteed identical up to identifiers and
timestamps, refuting the claim. -/
theorem substitutionOrderNondeterminism :
    envOrderSwapped = { envOrderBase with varOrderAt := envOrderSwapped.varOrderAt } ∧
    (envOrderBase.varOrderAt 3).Perm (List.range envOrderBase.vars.length) ∧
    (envOrderSwapped.varOrderAt 3).Perm (List.range envOrderSwapped.vars.length) ∧
    (ExecuteWorkflow envOrderBase).reqLog.map (fun r => r.prompt) ≠
      (ExecuteWorkflow envOrderSwapped).reqLog.map (fun r => r.prompt) ∧
    ((ExecuteWorkflow envOrderBase).kg.artifacts.map fun art => art.content) ≠
      ((ExecuteWorkflow envOrderSwapped).kg.artifacts.map fun art => art.content) ∧
    ((ExecuteWorkflow envOrderBase).result.map fun r =>
        r.steps.map fun kv => kv.2.output) ≠
      ((ExecuteWorkflow envOrderSwapped).result.map fun r =>
        r.steps.map fun kv => kv.2.output) := by
  exact ⟨rfl, by decide, by decide, by decide, by decide, by decide⟩

/-- C5 (amended).  Determinism up to identifiers and timestamps holds
once the map iteration orders are also fixed: running the same workflow,
variables, agents, providers, store and the same iteration order oracles
under two different clocks yields the same step execution order, the
same per-pass order, the same error, the same run result content, the
same stored run rows and artifact contents (identifiers and timestamps
erased), and the very same provider requests.  The clock is the only
varying input here — `Env.withTime` keeps `varOrderAt` and `resOrderAt`
— so this is the original claim weakened by conditioning on the map
iteration orders.  The freshness hypothesis rules out a run id collision
with a pre-existing run row. -/
theorem executionDeterministic (env : Env) (t1 t2 : Nat → Int)
    (hfresh : ∀ r ∈ env.kg0.runs,
      r.id ≠ mkRunId (env.withTime t1) ∧ r.id ≠ mkRunId (env.withTime t2)) :
    (ExecuteWorkflow (env.withTime t1)).execOrder =
      (ExecuteWorkflow (env.withTime t2)).execOrder ∧
    (ExecuteWorkflow (env.withTime t1)).passLog =
      (ExecuteWorkflow (env.withTime t2)).passLog ∧
    (ExecuteWorkflow (env.withTime t1)).error =
      (ExecuteWorkflow (env.withTime t2)).error ∧
    (ExecuteWorkflow (env.withTime t1)).result.map ExecutionResult.scrub =
      (ExecuteWorkflow (env.withTime t2)).result.map ExecutionResult.scrub ∧
    (ExecuteWorkflow (env.withTime t1)).kg.runs.map RunRecord.scrub =
      (ExecuteWorkflow (env.withTime t2)).kg.runs.map RunRecord.scrub ∧
    (ExecuteWorkflow (env.withTime t1)).kg.artifacts.map Artifact.scrub =
      (ExecuteWorkflow (env.withTime t2)).kg.artifacts.map Artifact.scrub ∧
    (ExecuteWorkflow (env.withTime t1)).reqLog =
      (ExecuteWorkflow (env.withTime t2)).reqLog := by
  have hsim0 : LoopSt.Sim (mkSt0 (env.withTime t1)) (mkSt0 (env.withTime t2)) := by
    refine ⟨rfl, rfl, ?_, rfl, rfl, rfl, rfl⟩
    simp [mkSt0, mkRun0, RunRecord.scrub, withTime_kg0, withTime_workflow,
      withTime_vars, List.map_append]
  have hS := execLoop_sim env t1 t2 (mkRunId (env.withTime t1))
    (mkRunId (env.withTime t2)) ((env.withTime t1).workflow.steps.length + 1)
    (mkSt0 (env.withTime t1)) (mkSt0 (env.withTime t2)) hsim0
  have hF1 := execLoop_frame (env.withTime t1) (mkRunId (env.withTime t1))
    ((env.withTime t1).workflow.steps.length + 1) (mkSt0 (env.withTime t1))
  have hF2 := execLoop_frame (env.withTime t2) (mkRunId (env.withTime t2))
    ((env.withTime t2).workflow.steps.length + 1) (mkSt0 (env.withTime t2))
  have hfuel : (env.withTime t2).workflow.steps.length + 1
      = (env.withTime t1).workflow.steps.length + 1 := rfl
  rw [hfuel] at hF2
  unfold ExecuteWorkflow
  simp only [withTime_createRunErr]
  rcases hC : env.createRunErr with _ | e
  · dsimp only
    rw [hfuel]
    rcases h1 : execLoop (env.withTime t1) (mkRunId (env.withTime t1))
        ((env.withTime t1).workflow.steps.length + 1)
        (mkSt0 (env.withTime t1)) with st1 | ⟨sr1, e1, st1⟩ | st1 | st1 <;>
      rcases h2 : execLoop (env.withTime t2) (mkRunId (env.withTime t2))
          ((env.withTime t1).workflow.steps.length + 1)
          (mkSt0 (env.withTime t2)) with st2 | ⟨sr2, e2, st2⟩ | st2 | st2 <;>
      rw [h1, h2] at hS <;>
      dsimp only [ExecOutcome.Sim] at hS <;>
      try exact hS.elim
    · -- completed / completed
      dsimp only
      obtain ⟨o1, r1e, ru, ar, ti, rq, pl⟩ := hS
      rw [h1] at hF1
      rw [h2] at hF2
      dsimp only [ExecOutcome.st] at hF1 hF2
      have hr1 : st1.kg.runs = env.kg0.runs ++ [mkRun0 (env.withTime t1)] := by
        have h := hF1.2.1
        rw [h]
        simp [mkSt0, withTime_kg0]
      have hr2 : st2.kg.runs = env.kg0.runs ++ [mkRun0 (env.withTime t2)] := by
        have h := hF2.2.1
        rw [h]
        simp [mkSt0, withTime_kg0]
      refine ⟨o1, pl, rfl, ?_, ?_, ar, rq⟩
      · show some (ExecutionResult.scrub _) = some (ExecutionResult.scrub _)
        congr 1
        simp [ExecutionResult.scrub, r1e]
      · simp only [updateRunStatusKG]
        rw [hr1, hr2,
          updateRuns_append env.kg0.runs (mkRun0 (env.withTime t1))
            (mkRunId (env.withTime t1)) "completed" (fmtMap []) "" rfl
            (fun r hr => (hfresh r hr).1),
          updateRuns_append env.kg0.runs (mkRun0 (env.withTime t2))
            (mkRunId (env.withTime t2)) "completed" (fmtMap []) "" rfl
            (fun r hr => (hfresh r hr).2)]
        simp [List.map_append, RunRecord.scrub, mkRun0, withTime_workflow,
          withTime_vars]
    · -- stepFailed / stepFailed
      dsimp only
      obtain ⟨hsr, he, o1, r1e, ru, ar, ti, rq, pl⟩ := hS
      subst he
      rw [h1] at hF1
      rw [h2] at hF2
      dsimp only [ExecOutcome.st] at hF1 hF2
      have hr1 : st1.kg.runs = env.kg0.runs ++ [mkRun0 (env.withTime t1)] := by
        have h := hF1.2.1
        rw [h]
        simp [mkSt0, withTime_kg0]
      have hr2 : st2.kg.runs = env.kg0.runs ++ [mkRun0 (env.withTime t2)] := by
        have h := hF2.2.1
        rw [h]
        simp [mkSt0, withTime_kg0]
      refine ⟨o1, pl, rfl, ?_, ?_, ar, rq⟩
      · show some (ExecutionResult.scrub _) = some (ExecutionResult.scrub _)
        congr 1
        simp [ExecutionResult.scrub, r1e]
      · simp only [updateRunStatusKG]
        rw [hr1, hr2,
          updateRuns_append env.kg0.runs (mkRun0 (env.withTime t1))
            (mkRunId (env.withTime t1)) "failed" "" e1 rfl
            (fun r hr => (hfresh r hr).1),
          updateRuns_append env.kg0.runs (mkRun0 (env.withTime t2))
            (mkRunId (env.withTime t2)) "failed" "" e1 rfl
            (fun r hr => (hfresh r hr).2)]
        simp [List.map_append, RunRecord.scrub, mkRun0, withTime_workflow,
          withTime_vars]
    · -- stalled / stalled
      dsimp only
      obtain ⟨o1, r1e, ru, ar, ti, rq, pl⟩ := hS
      exact ⟨o1, pl, rfl, rfl, ru, ar, rq⟩
    · -- fuelOut / fuelOut
      dsimp only
      obtain ⟨o1, r1e, ru, ar, ti, rq, pl⟩ := hS
      exact ⟨o1, pl, rfl, rfl, ru, ar, rq⟩
  · dsimp only
    exact ⟨rfl, rfl, rfl, rfl, rfl, rfl, rfl⟩

/-- Witness for C5: the chain fixture run under two different clocks has
identical order, result content and requests. -/
theorem executionDeterministic_witness :
    (∀ r ∈ envChain.kg0.runs,
      r.id ≠ mkRunId (envChain.withTime fun _ => 0) ∧
      r.id ≠ mkRunId (envChain.withTime fun n => (n : Int) + 5)) ∧
    (ExecuteWorkflow (envChain.withTime fun _ => 0)).execOrder =
      (ExecuteWorkflow (envChain.withTime fun n => (n : Int) + 5)).execOrder ∧
    (ExecuteWorkflow (envChain.withTime fun _ => 0)).result.map ExecutionResult.scrub =
      (ExecuteWorkflow (envChain.withTime fun n => (n : Int) + 5)).result.map
        ExecutionResult.scrub ∧
    (ExecuteWorkflow (envChain.withTime fun _ => 0)).reqLog =
      (ExecuteWorkflow (envChain.withTime fun n => (n : Int) + 5)).reqLog := by
  have hfresh : ∀ r ∈ envChain.kg0.runs,
      r.id ≠ mkRunId (envChain.withTime fun _ => 0) ∧
      r.id ≠ mkRunId (envChain.withTime fun n => (n : Int) + 5) := by
    intro r hr
    simp [envChain] at hr
  have h := executionDeterministic envChain (fun _ => 0) (fun n => (n : Int) + 5) hfresh
  exact ⟨hfresh, h.1, h.2.2.2.1, h.2.2.2.2.2.2⟩

end Medallion
